import Mathlib

/-!
Verification of `scripts/sync_productions.mjs` (the production-merge script of
the Shakespeare-2025 repository).

The script is a single pure merge routine wrapped in file I/O:
it reads two JSON arrays (candidates, existing productions), reconciles them
by the `id` field, and writes the updated productions array back.

Shallow embedding conventions:
* JSON values are the inductive `Json` below.  Values produced by `JSON.parse`
  never contain `undefined`, functions, or duplicate object keys, and object
  key order is insertion order; `List (String × Json)` with its order models
  exactly that.
* JavaScript strict equality `===` on primitives is value equality; on objects
  and arrays it is reference equality.  In this script the only composite
  comparison whose operands can be reference-equal is the line-117
  `areArraysEqual(existingThemes, merged.themes || [])` check, which compares
  an array with itself; structural equality (used here) agrees with the
  reference semantics there, and agrees on primitive theme entries (the data
  schema declares `themes` to be an array of strings) at line 107.
* `hasChanges` in the script compares `JSON.stringify` outputs of
  `normalizeRecord`-copies.  `JSON.parse(JSON.stringify x)` is the identity on
  parsed-JSON values and stringification is injective on them, so the test is
  modelled as structural inequality.
* The `--limit` / `--dry-run` command line values and the two parsed files are
  parameters of `runSync`; a file whose contents are not valid JSON is the
  `none` input (its `JSON.parse` throws).
* Exceptions are modelled by `Except String`; a thrown error aborts the run
  before the final write, exactly as in the script.
-/

/-- A JSON value (the result of `JSON.parse`).  Numbers are modelled as
integers: no claim involves fractional or overflowing numerics. -/
inductive Json where
  | null
  | bool (b : Bool)
  | num (n : Int)
  | str (s : String)
  | arr (elems : List Json)
  | obj (fields : List (String × Json))
deriving Repr, Inhabited

mutual

/-- Structural (boolean) equality of JSON values. -/
def Json.beq : Json → Json → Bool
  | .null, .null => true
  | .bool a, .bool b => a == b
  | .num a, .num b => a == b
  | .str a, .str b => a == b
  | .arr as, .arr bs => Json.beqArr as bs
  | .obj as, .obj bs => Json.beqObj as bs
  | _, _ => false

/-- Structural equality of JSON arrays, elementwise. -/
def Json.beqArr : List Json → List Json → Bool
  | [], [] => true
  | x :: xs, y :: ys => Json.beq x y && Json.beqArr xs ys
  | _, _ => false

/-- Structural equality of JSON object field lists, in order. -/
def Json.beqObj : List (String × Json) → List (String × Json) → Bool
  | [], [] => true
  | (k1, v1) :: xs, (k2, v2) :: ys => k1 == k2 && Json.beq v1 v2 && Json.beqObj xs ys
  | _, _ => false

end

mutual

theorem Json.beq_iff : ∀ a b : Json, Json.beq a b = true ↔ a = b
  | .null, .null => by simp [Json.beq]
  | .bool a, .bool b => by simp [Json.beq]
  | .num a, .num b => by simp [Json.beq]
  | .str a, .str b => by simp [Json.beq]
  | .arr as, .arr bs => by simp [Json.beq, Json.beqArr_iff as bs]
  | .obj as, .obj bs => by simp [Json.beq, Json.beqObj_iff as bs]
  | .null, .bool _ | .null, .num _ | .null, .str _ | .null, .arr _ | .null, .obj _
  | .bool _, .null | .bool _, .num _ | .bool _, .str _ | .bool _, .arr _ | .bool _, .obj _
  | .num _, .null | .num _, .bool _ | .num _, .str _ | .num _, .arr _ | .num _, .obj _
  | .str _, .null | .str _, .bool _ | .str _, .num _ | .str _, .arr _ | .str _, .obj _
  | .arr _, .null | .arr _, .bool _ | .arr _, .num _ | .arr _, .str _ | .arr _, .obj _
  | .obj _, .null | .obj _, .bool _ | .obj _, .num _ | .obj _, .str _ | .obj _, .arr _ => by
      simp [Json.beq]

theorem Json.beqArr_iff : ∀ as bs : List Json, Json.beqArr as bs = true ↔ as = bs
  | [], [] => by simp [Json.beqArr]
  | x :: xs, y :: ys => by
      simp [Json.beqArr, Json.beq_iff x y, Json.beqArr_iff xs ys]
  | [], _ :: _ => by simp [Json.beqArr]
  | _ :: _, [] => by simp [Json.beqArr]

theorem Json.beqObj_iff : ∀ as bs : List (String × Json), Json.beqObj as bs = true ↔ as = bs
  | [], [] => by simp [Json.beqObj]
  | (k1, v1) :: xs, (k2, v2) :: ys => by
      simp [Json.beqObj, Json.beq_iff v1 v2, Json.beqObj_iff xs ys, and_assoc]
  | [], _ :: _ => by simp [Json.beqObj]
  | _ :: _, [] => by simp [Json.beqObj]

end

instance : DecidableEq Json := fun a b =>
  decidable_of_iff (Json.beq a b = true) (Json.beq_iff a b)

deriving instance DecidableEq for Except

/-- JavaScript truthiness of a JSON value (`undefined` never occurs as a
value; an absent field is an `Option.none` instead). -/
def truthy : Json → Bool
  | .null => false
  | .bool b => b
  | .num n => n != 0
  | .str s => s != ""
  | .arr _ => true
  | .obj _ => true

/-- Whether `typeof x === "object"` holds (true for objects, arrays and
`null`). -/
def isObjectType : Json → Bool
  | .null => true
  | .arr _ => true
  | .obj _ => true
  | _ => false

/-- The property list of a JSON value; non-objects have no (own, JSON-visible)
properties. -/
def objFields : Json → List (String × Json)
  | .obj fs => fs
  | _ => []

/-- First binding of a key in a field list.  `JSON.parse` output has unique
keys, for which first and last occurrence agree. -/
def findVal (fs : List (String × Json)) (k : String) : Option Json :=
  (fs.find? (fun p => p.1 = k)).map Prod.snd

/-- Whether a field list binds a key. -/
def containsKey (fs : List (String × Json)) (k : String) : Bool :=
  fs.any (fun p => p.1 = k)

/-- Property access `x.k`: `none` models `undefined`. -/
def getField (j : Json) (k : String) : Option Json :=
  findVal (objFields j) k

/-- Writing a property in an object literal: an existing key keeps its
position and gets the new value, a fresh key is appended (JS property
order). -/
def setField (fs : List (String × Json)) (k : String) (v : Json) : List (String × Json) :=
  if containsKey fs k then fs.map (fun p => if p.1 = k then (p.1, v) else p)
  else fs ++ [(k, v)]

/-- The object literal `{...a, ...b}`: `a`'s keys in order with `b`'s values
where `b` also binds them, then `b`'s remaining keys in order. -/
def spreadFields (a b : List (String × Json)) : List (String × Json) :=
  a.map (fun p => (p.1, (findVal b p.1).getD p.2)) ++
    b.filter (fun p => !containsKey a p.1)

/-- The script's `x || []` idiom (lines 105-106): a falsy or absent value
becomes the empty array. -/
def orEmptyArray (v : Option Json) : Json :=
  match v with
  | some j => if truthy j then j else Json.arr []
  | none => Json.arr []

/-- The `.length` property: arrays and strings have one, other values give
`undefined` (`none`). -/
def jsLength : Json → Option Nat
  | .arr xs => some xs.length
  | .str s => some s.length
  | _ => none

/-- Indexing `x[i]`: array element, or one-character string for strings. -/
def jsIndexAt : Json → Nat → Option Json
  | .arr xs, i => xs[i]?
  | .str s, i => (s.data[i]?).map (fun c => Json.str (String.mk [c]))
  | _, _ => none

/-- Lines 43-48, `areArraysEqual(left, right)`.  When the `.length`s differ
(`undefined` included) it returns `false`; otherwise it calls `left.every`,
which throws a `TypeError` unless `left` is an array.  Elementwise `===` is
structural here (see the header note on reference equality).  The default
parameters `= []` are dead: every call site passes a defined value. -/
def areArraysEqual (left right : Json) : Except String Bool :=
  if jsLength left ≠ jsLength right then Except.ok false
  else
    match left with
    | .arr xs =>
        Except.ok ((List.range xs.length).all (fun i =>
          match xs[i]?, jsIndexAt right i with
          | some v, some w => v = w
          | _, _ => false))
    | _ => Except.error "left.every is not a function"

/-- Line 50, `normalizeRecord`: `JSON.parse(JSON.stringify r)` is the identity
on parsed-JSON values. -/
def normalizeRecord (r : Json) : Json := r

/-- A JS `Map` from JSON keys to array positions, as an insertion-ordered
association list.  `set` overwrites in place or appends (lines 75-80). -/
def mapSet (m : List (Json × Nat)) (k : Json) (v : Nat) : List (Json × Nat) :=
  if m.any (fun p => p.1 = k) then m.map (fun p => if p.1 = k then (p.1, v) else p)
  else m ++ [(k, v)]

/-- `Map.get`: the stored value, if any. -/
def mapGet (m : List (Json × Nat)) (k : Json) : Option Nat :=
  (m.find? (fun p => p.1 = k)).map Prod.snd

/-- Lines 76-80: index every production with a truthy `id` by its position;
a later duplicate id overwrites an earlier one. -/
def buildIndexFrom : Nat → List (Json × Nat) → List Json → List (Json × Nat)
  | _, m, [] => m
  | i, m, p :: rest =>
      buildIndexFrom (i + 1)
        (match getField p "id" with
         | some v => if truthy v then mapSet m v i else m
         | none => m) rest

/-- The `productionIndex` map of line 75. -/
def buildIndex (ps : List Json) : List (Json × Nat) :=
  buildIndexFrom 0 [] ps

/-- The mutable run state of `main`: the productions array (updated in place
and appended to) and the four counters of lines 82-85. -/
structure SyncState where
  productions : List Json
  createdCount : Nat
  updatedCount : Nat
  themesUnchangedCount : Nat
  themeMismatchCount : Nat
deriving Repr, DecidableEq

/-- Initial state: the parsed productions array, all counters zero. -/
def initState (ps : List Json) : SyncState :=
  ⟨ps, 0, 0, 0, 0⟩

/-- Lines 111-115: `{...existing, ...candidate, themes: existingThemes}`. -/
def mergedRecord (existing candidate : Json) : Json :=
  Json.obj (setField (spreadFields (objFields existing) (objFields candidate))
    "themes" (orEmptyArray (getField existing "themes")))

/-- Lines 104-129: the body of the loop for a candidate whose id is present in
the index, at position `i`.  Theme mismatch is counted first, then the merged
record is formed, then the always-about-to-hold themes-unchanged check runs,
then the record is replaced when the serialized forms differ. -/
def mergeMatched (st : SyncState) (i : Nat) (candidate : Json) : Except String SyncState :=
  let existing := st.productions.getD i Json.null
  let existingThemes := orEmptyArray (getField existing "themes")
  let candidateThemes := orEmptyArray (getField candidate "themes")
  match areArraysEqual existingThemes candidateThemes with
  | .error e => .error e
  | .ok themesEqual =>
      let st1 := if themesEqual then st
                 else { st with themeMismatchCount := st.themeMismatchCount + 1 }
      let merged := mergedRecord existing candidate
      match areArraysEqual existingThemes (orEmptyArray (getField merged "themes")) with
      | .error e => .error e
      | .ok mergedThemesEqual =>
          let st2 := if mergedThemesEqual
                     then { st1 with themesUnchangedCount := st1.themesUnchangedCount + 1 }
                     else st1
          if normalizeRecord merged = normalizeRecord existing then .ok st2
          else .ok { st2 with productions := st2.productions.set i merged,
                              updatedCount := st2.updatedCount + 1 }

/-- Lines 87-102: one iteration of the `forEach` over candidates.  Falsy or
non-object candidates and candidates with a falsy or absent `id` are skipped;
an unindexed id appends the candidate verbatim and counts a creation. -/
def processCandidate (idx : List (Json × Nat)) (st : SyncState) (candidate : Json) :
    Except String SyncState :=
  if truthy candidate && isObjectType candidate then
    match getField candidate "id" with
    | none => .ok st
    | some idv =>
        if truthy idv then
          match mapGet idx idv with
          | none => .ok { st with productions := st.productions ++ [candidate],
                                  createdCount := st.createdCount + 1 }
          | some i => mergeMatched st i candidate
        else .ok st
  else .ok st

/-- The whole `forEach` loop: a thrown `TypeError` propagates and aborts the
run. -/
def mergeLoop (idx : List (Json × Nat)) : SyncState → List Json → Except String SyncState
  | st, [] => .ok st
  | st, c :: rest =>
      match processCandidate idx st c with
      | .error e => .error e
      | .ok st2 => mergeLoop idx st2 rest

/-- Lines 75-130: the pure merge of a candidate list into the productions
array (the index is built once, before the loop, and never updated). -/
def runMerge (ps candidates : List Json) : Except String SyncState :=
  mergeLoop (buildIndex ps) (initState ps) candidates

/-- Decimal digit test for `parseInt`. -/
def isAsciiDigit (c : Char) : Bool := '0' ≤ c && c ≤ '9'

/-- JS `StrWhiteSpaceChar` (the common ASCII part; the claims involve none of
the exotic Unicode spaces). -/
def isJsWhitespace (c : Char) : Bool :=
  c = ' ' || c = '\t' || c = '\n' || c = '\r' || c = Char.ofNat 11 || c = Char.ofNat 12

/-- Value of a digit string. -/
def digitsToNat (ds : List Char) : Nat :=
  ds.foldl (fun a c => a * 10 + (c.toNat - '0'.toNat)) 0

/-- `Number.parseInt(s, 10)`: skip whitespace, read an optional sign and then
a maximal run of decimal digits, ignore the rest of the string; `NaN` (here
`none`) when no digit was read. -/
def jsParseInt10 (s : String) : Option Int :=
  let cs := s.data.dropWhile isJsWhitespace
  let signed : Int × List Char :=
    match cs with
    | '-' :: rest => (-1, rest)
    | '+' :: rest => (1, rest)
    | _ => (1, cs)
  let digits := signed.2.takeWhile isAsciiDigit
  if digits.isEmpty then none else some (signed.1 * (digitsToNat digits : Int))

/-- Lines 27-36, `parseLimit`: absent value means no limit; `NaN` or a
nonpositive parse throws. -/
def parseLimit (value : Option String) : Except String (Option Int) :=
  match value with
  | none => .ok none
  | some v =>
      match jsParseInt10 v with
      | none => .error ("Invalid --limit value: " ++ v)
      | some n =>
          if n ≤ 0 then .error ("Invalid --limit value: " ++ v)
          else .ok (some n)

/-- Line 73: `limit ? candidates.slice(0, limit) : candidates` (the stored
limit is positive whenever present, hence truthy). -/
def applyLimit (limit : Option Int) (candidates : List Json) : List Json :=
  match limit with
  | some n => candidates.take n.toNat
  | none => candidates

/-- Outcome of a whole run: the statistics that get reported and the array
written to the output file (`none` when nothing is written). -/
structure SyncRun where
  totalCandidates : Nat
  state : SyncState
  written : Option (List Json)
deriving Repr, DecidableEq

/-- The `readJson` helper: a malformed file (`none`) makes `JSON.parse`
throw. -/
def readJsonValue (file : Option Json) : Except String Json :=
  match file with
  | some j => .ok j
  | none => .error "Unexpected end of JSON input"

/-- Lines 65-70: each input must be a top-level array. -/
def requireArray (j : Json) (msg : String) : Except String (List Json) :=
  match j with
  | .arr xs => .ok xs
  | _ => .error msg

/-- Lines 52-155, `main`, with the I/O made explicit: parse the limit (before
any read), read and validate both files, merge, and either report a dry run or
write the merged array.  Any error falls through before the write. -/
def runSync (candidatesFile productionsFile : Option Json) (limitArg : Option String)
    (dryRun : Bool) : Except String SyncRun :=
  match parseLimit limitArg with
  | .error e => .error e
  | .ok limit =>
      match readJsonValue candidatesFile with
      | .error e => .error e
      | .ok candidatesJson =>
          match readJsonValue productionsFile with
          | .error e => .error e
          | .ok productionsJson =>
              match requireArray candidatesJson "Candidates file must contain an array." with
              | .error e => .error e
              | .ok candidates =>
                  match requireArray productionsJson "Productions file must contain an array." with
                  | .error e => .error e
                  | .ok productions =>
                      match runMerge productions (applyLimit limit candidates) with
                      | .error e => .error e
                      | .ok st =>
                          .ok { totalCandidates := candidates.length,
                                state := st,
                                written := if dryRun then none else some st.productions }

/-- A candidate the loop acts on: truthy, of object type, with a truthy
`id`. -/
def isWellFormedCandidate (c : Json) : Bool :=
  truthy c && isObjectType c &&
    (match getField c "id" with
     | some v => truthy v
     | none => false)

/-- The id of a (well-formed) candidate. -/
def candidateId (c : Json) : Json :=
  (getField c "id").getD Json.null

/-- The id values present in a record list, in order. -/
def idsOf (l : List Json) : List Json :=
  l.filterMap (fun r => getField r "id")

/-- The ids of the well-formed candidates, in order. -/
def wfIds (cs : List Json) : List Json :=
  cs.filterMap (fun c => if isWellFormedCandidate c then getField c "id" else none)

/-- The candidates a run appends: well-formed, with an id the prebuilt index
does not know. -/
def newcomers (idx : List (Json × Nat)) (cs : List Json) : List Json :=
  cs.filter (fun c => isWellFormedCandidate c && (mapGet idx (candidateId c)).isNone)

/-- A record with no duplicate field names (every `JSON.parse` result). -/
def nodupKeys (c : Json) : Prop :=
  ((objFields c).map Prod.fst).Nodup

instance nodupKeysDecidable (c : Json) : Decidable (nodupKeys c) :=
  inferInstanceAs (Decidable ((objFields c).map Prod.fst).Nodup)

/-- A record already saturated by a candidate: merging the candidate into it
reproduces it. -/
def Saturated (r c : Json) : Prop :=
  mergedRecord r c = r

/-- What a run leaves in the output file. -/
def writtenOf (r : Except String SyncRun) : Option (List Json) :=
  match r with
  | .ok run => run.written
  | .error _ => none

/-! ### Basic value lemmas -/

theorem truthy_orEmptyArray (v : Option Json) : truthy (orEmptyArray v) = true := by
  cases v with
  | none => rfl
  | some j =>
      simp only [orEmptyArray]
      cases h : truthy j
      · simp [h, truthy]
      · simp [h]

theorem orEmptyArray_some_of_truthy {j : Json} (h : truthy j = true) :
    orEmptyArray (some j) = j := by
  simp [orEmptyArray, h]

theorem orEmptyArray_arr (xs : List Json) :
    orEmptyArray (some (Json.arr xs)) = Json.arr xs := by
  simp [orEmptyArray, truthy]

/-! ### Field-list lemmas -/

theorem findVal_nil (k : String) : findVal [] k = none := rfl

theorem findVal_cons (p : String × Json) (fs : List (String × Json)) (k : String) :
    findVal (p :: fs) k = if p.1 = k then some p.2 else findVal fs k := by
  by_cases h : p.1 = k <;> simp [findVal, List.find?_cons, h]

theorem containsKey_nil (k : String) : containsKey [] k = false := rfl

theorem containsKey_cons (p : String × Json) (fs : List (String × Json)) (k : String) :
    containsKey (p :: fs) k = (decide (p.1 = k) || containsKey fs k) := by
  simp [containsKey, List.any_cons]

theorem containsKey_eq_isSome_findVal (fs : List (String × Json)) (k : String) :
    containsKey fs k = (findVal fs k).isSome := by
  induction fs with
  | nil => rfl
  | cons p fs ih =>
      rw [containsKey_cons, findVal_cons]
      by_cases h : p.1 = k <;> simp [h, ih]

theorem findVal_none_of_not_containsKey {fs : List (String × Json)} {k : String}
    (h : containsKey fs k = false) : findVal fs k = none := by
  have h2 := containsKey_eq_isSome_findVal fs k
  rw [h] at h2
  exact Option.not_isSome_iff_eq_none.mp (by simp [← h2])

theorem containsKey_of_mem {fs : List (String × Json)} {p : String × Json}
    (h : p ∈ fs) : containsKey fs p.1 = true := by
  unfold containsKey
  rw [List.any_eq_true]
  exact ⟨p, h, by simp⟩

theorem findVal_append (a b : List (String × Json)) (k : String) :
    findVal (a ++ b) k = ((findVal a k).orElse (fun _ => findVal b k)) := by
  induction a with
  | nil => simp [findVal]
  | cons p a ih =>
      rw [List.cons_append, findVal_cons, findVal_cons]
      by_cases h : p.1 = k <;> simp [h, ih]

theorem findVal_eq_of_nodup {fs : List (String × Json)} {p : String × Json}
    (hn : (fs.map Prod.fst).Nodup) (h : p ∈ fs) : findVal fs p.1 = some p.2 := by
  induction fs with
  | nil => cases h
  | cons q fs ih =>
      rcases List.mem_cons.mp h with rfl | h2
      · simp [findVal_cons]
      · rw [findVal_cons]
        have hq : q.1 ≠ p.1 := by
          intro he
          have hm : p.1 ∈ fs.map Prod.fst := List.mem_map_of_mem Prod.fst h2
          rw [← he] at hm
          exact (List.nodup_cons.mp hn).1 hm
        simp only [hq, if_false]
        exact ih (List.nodup_cons.mp hn).2 h2

theorem findVal_map_set_self {fs : List (String × Json)} {k : String} (v : Json)
    (h : containsKey fs k = true) :
    findVal (fs.map (fun p => if p.1 = k then (p.1, v) else p)) k = some v := by
  induction fs with
  | nil => simp [containsKey] at h
  | cons p fs ih =>
      rw [containsKey_cons] at h
      by_cases hp : p.1 = k
      · simp [hp, findVal_cons]
      · rw [List.map_cons, if_neg hp, findVal_cons, if_neg hp]
        exact ih (by simpa [hp] using h)

theorem findVal_map_set_ne {fs : List (String × Json)} {k k2 : String} (v : Json)
    (h : k2 ≠ k) :
    findVal (fs.map (fun p => if p.1 = k then (p.1, v) else p)) k2 = findVal fs k2 := by
  induction fs with
  | nil => rfl
  | cons p fs ih =>
      by_cases hp : p.1 = k
      · rw [List.map_cons, if_pos hp, findVal_cons, findVal_cons]
        have hp2 : p.1 ≠ k2 := by rw [hp]; exact fun he => h he.symm
        simp [hp2, ih]
      · rw [List.map_cons, if_neg hp, findVal_cons, findVal_cons]
        by_cases hp2 : p.1 = k2 <;> simp [hp2, ih]

theorem findVal_setField_self (fs : List (String × Json)) (k : String) (v : Json) :
    findVal (setField fs k v) k = some v := by
  unfold setField
  cases hc : containsKey fs k
  · simp only [Bool.false_eq_true, if_false]
    rw [findVal_append, findVal_none_of_not_containsKey hc]
    simp [findVal_cons]
  · rw [if_pos rfl]
    exact findVal_map_set_self v hc

theorem findVal_setField_ne (fs : List (String × Json)) (k k2 : String) (v : Json)
    (h : k2 ≠ k) : findVal (setField fs k v) k2 = findVal fs k2 := by
  unfold setField
  cases hc : containsKey fs k
  · simp only [Bool.false_eq_true, if_false]
    rw [findVal_append, findVal_cons]
    have hk : k ≠ k2 := fun he => h he.symm
    cases hf : findVal fs k2 <;> simp [hk, hf, findVal_nil]
  · rw [if_pos rfl]
    exact findVal_map_set_ne v h

theorem findVal_map_spread (a b : List (String × Json)) (k : String) :
    findVal (a.map (fun p => (p.1, (findVal b p.1).getD p.2))) k =
      (findVal a k).map (fun v => (findVal b k).getD v) := by
  induction a with
  | nil => rfl
  | cons p a ih =>
      rw [List.map_cons, findVal_cons, findVal_cons]
      by_cases h : p.1 = k
      · subst h; simp
      · simp [h, ih]

theorem findVal_filter_not_containsKey (a b : List (String × Json)) (k : String) :
    findVal (b.filter (fun p => !containsKey a p.1)) k =
      if containsKey a k then none else findVal b k := by
  induction b with
  | nil => simp [findVal_nil]
  | cons q b ih =>
      cases hc : containsKey a q.1
      · rw [List.filter_cons_of_pos (by simp [hc]), findVal_cons, findVal_cons]
        by_cases hq : q.1 = k
        · subst hq
          simp [hc]
        · simp [hq, ih]
      · rw [List.filter_cons_of_neg (by simp [hc]), findVal_cons, ih]
        by_cases hq : q.1 = k
        · subst hq
          simp [hc]
        · simp [hq]

theorem findVal_spreadFields (a b : List (String × Json)) (k : String) :
    findVal (spreadFields a b) k =
      match findVal a k with
      | some v => some ((findVal b k).getD v)
      | none => findVal b k := by
  unfold spreadFields
  rw [findVal_append, findVal_map_spread, findVal_filter_not_containsKey]
  cases hf : findVal a k
  · have hc : containsKey a k = false := by
      rw [containsKey_eq_isSome_findVal, hf]; rfl
    simp [hc]
  · have hc : containsKey a k = true := by
      rw [containsKey_eq_isSome_findVal, hf]; rfl
    simp [hc]

theorem getField_mergedRecord_themes (e c : Json) :
    getField (mergedRecord e c) "themes" = some (orEmptyArray (getField e "themes")) := by
  unfold mergedRecord getField
  simp only [objFields]
  exact findVal_setField_self _ _ _

theorem getField_mergedRecord_ne (e c : Json) (k : String) (h : k ≠ "themes") :
    getField (mergedRecord e c) k =
      match findVal (objFields e) k with
      | some v => some ((findVal (objFields c) k).getD v)
      | none => findVal (objFields c) k := by
  unfold mergedRecord getField
  simp only [objFields]
  rw [findVal_setField_ne _ _ _ _ h, findVal_spreadFields]

theorem getField_mergedRecord_id {c : Json} (e : Json) {idv : Json}
    (h : getField c "id" = some idv) :
    getField (mergedRecord e c) "id" = some idv := by
  rw [getField_mergedRecord_ne e c "id" (by decide)]
  unfold getField at h
  cases hf : findVal (objFields e) "id" <;> simp [hf, h]

/-! ### Lemmas about areArraysEqual -/

theorem areArraysEqual_arr_arr (xs ys : List Json) :
    areArraysEqual (Json.arr xs) (Json.arr ys) = Except.ok (decide (xs = ys)) := by
  unfold areArraysEqual
  by_cases h : xs.length = ys.length
  · rw [if_neg (by simp [jsLength, h])]
    refine congrArg Except.ok ?_
    have hall : ((List.range xs.length).all (fun i =>
        match xs[i]?, jsIndexAt (Json.arr ys) i with
        | some v, some w => decide (v = w)
        | _, _ => false)) = true ↔ xs = ys := by
      rw [List.all_eq_true]
      constructor
      · intro hi
        apply List.ext_getElem h
        intro n h1 h2
        have := hi n (List.mem_range.mpr h1)
        rw [List.getElem?_eq_getElem h1] at this
        simp only [jsIndexAt, List.getElem?_eq_getElem h2] at this
        simpa using this
      · rintro rfl i hi
        rw [List.mem_range] at hi
        simp [jsIndexAt, List.getElem?_eq_getElem hi]
    by_cases he : xs = ys
    · rw [hall.mpr he]
      exact (decide_eq_true he).symm
    · rw [Bool.eq_false_iff.mpr (fun hx => he (hall.mp hx))]
      exact (decide_eq_false he).symm
  · rw [if_pos (by simp [jsLength, h])]
    have : ¬ xs = ys := fun he => h (by rw [he])
    simp [this]

theorem areArraysEqual_left_arr_isOk (xs : List Json) (r : Json) :
    ∃ b, areArraysEqual (Json.arr xs) r = Except.ok b := by
  unfold areArraysEqual
  by_cases h : jsLength (Json.arr xs) ≠ jsLength r
  · exact ⟨false, by rw [if_pos h]⟩
  · refine ⟨_, by rw [if_neg h]⟩

theorem areArraysEqual_self_ok {t : Json} {b : Bool}
    (h : areArraysEqual t t = Except.ok b) : (∃ ts, t = Json.arr ts) ∧ b = true := by
  cases t with
  | arr xs =>
      rw [areArraysEqual_arr_arr] at h
      cases h
      exact ⟨⟨xs, rfl⟩, by simp⟩
  | null => unfold areArraysEqual at h; rw [if_neg (by simp)] at h; cases h
  | bool b2 => unfold areArraysEqual at h; rw [if_neg (by simp)] at h; cases h
  | num n => unfold areArraysEqual at h; rw [if_neg (by simp)] at h; cases h
  | str s => unfold areArraysEqual at h; rw [if_neg (by simp)] at h; cases h
  | obj fs => unfold areArraysEqual at h; rw [if_neg (by simp)] at h; cases h

/-! ### Key-set lemmas for setField and spreadFields -/

theorem containsKey_append (a b : List (String × Json)) (k : String) :
    containsKey (a ++ b) k = (containsKey a k || containsKey b k) := by
  simp [containsKey, List.any_append]

theorem containsKey_map_fst_preserved (g : String × Json → String × Json)
    (hg : ∀ p, (g p).1 = p.1) (fs : List (String × Json)) (k : String) :
    containsKey (fs.map g) k = containsKey fs k := by
  induction fs with
  | nil => rfl
  | cons p fs ih => rw [List.map_cons, containsKey_cons, containsKey_cons, hg, ih]

theorem containsKey_spreadFields (a b : List (String × Json)) (k : String) :
    containsKey (spreadFields a b) k = (containsKey a k || containsKey b k) := by
  unfold spreadFields
  rw [containsKey_append,
    containsKey_map_fst_preserved (fun p => (p.1, (findVal b p.1).getD p.2)) (fun p => rfl)]
  cases hc : containsKey a k
  · simp only [Bool.false_or]
    induction b with
    | nil => rfl
    | cons q b ih =>
        by_cases hq : q.1 = k
        · subst hq
          rw [List.filter_cons_of_pos (by simp [hc]), containsKey_cons, containsKey_cons]
          simp
        · cases hcq : containsKey a q.1
          · rw [List.filter_cons_of_pos (by simp [hcq]), containsKey_cons, containsKey_cons]
            simp [hq, ih]
          · rw [List.filter_cons_of_neg (by simp [hcq]), containsKey_cons]
            simp [hq, ih]
  · simp

theorem containsKey_setField_self (fs : List (String × Json)) (k : String) (v : Json) :
    containsKey (setField fs k v) k = true := by
  unfold setField
  by_cases hc : containsKey fs k = true
  · rw [if_pos hc,
      containsKey_map_fst_preserved (fun p => if p.1 = k then (p.1, v) else p)
        (fun p => by by_cases hp : p.1 = k <;> simp [hp])]
    exact hc
  · rw [if_neg hc, containsKey_append, containsKey_cons]
    simp

theorem containsKey_setField_of {fs : List (String × Json)} {k2 : String} (k : String)
    (v : Json) (h : containsKey fs k2 = true) :
    containsKey (setField fs k v) k2 = true := by
  unfold setField
  by_cases hc : containsKey fs k = true
  · rw [if_pos hc,
      containsKey_map_fst_preserved (fun p => if p.1 = k then (p.1, v) else p)
        (fun p => by by_cases hp : p.1 = k <;> simp [hp])]
    exact h
  · rw [if_neg hc, containsKey_append, h]
    simp

theorem mem_setField_ne {fs : List (String × Json)} {k : String} {v : Json}
    {p : String × Json} (h : p ∈ setField fs k v) (hne : p.1 ≠ k) : p ∈ fs := by
  unfold setField at h
  by_cases hc : containsKey fs k = true
  · rw [if_pos hc] at h
    obtain ⟨q, hq, he⟩ := List.mem_map.mp h
    by_cases hqk : q.1 = k
    · rw [if_pos hqk] at he
      rw [← he] at hne
      exact absurd hqk hne
    · rw [if_neg hqk] at he
      rw [he] at hq
      exact hq
  · rw [if_neg hc] at h
    rcases List.mem_append.mp h with h | h
    · exact h
    · rw [List.mem_singleton] at h
      rw [h] at hne
      exact absurd rfl hne

theorem mem_setField_key {fs : List (String × Json)} {k : String} {v : Json}
    {p : String × Json} (h : p ∈ setField fs k v) (hk : p.1 = k) : p.2 = v := by
  unfold setField at h
  by_cases hc : containsKey fs k = true
  · rw [if_pos hc] at h
    obtain ⟨q, hq, he⟩ := List.mem_map.mp h
    by_cases hqk : q.1 = k
    · rw [if_pos hqk] at he
      rw [← he]
    · rw [if_neg hqk] at he
      rw [he] at hqk
      exact absurd hk hqk
  · rw [if_neg hc] at h
    rcases List.mem_append.mp h with h | h
    · have := containsKey_of_mem h
      rw [hk] at this
      rw [this] at hc
      exact absurd rfl hc
    · rw [List.mem_singleton] at h
      rw [h]

theorem mem_spreadFields {a b : List (String × Json)} {p : String × Json}
    (h : p ∈ spreadFields a b) :
    (∃ q ∈ a, p = (q.1, (findVal b q.1).getD q.2)) ∨
      (p ∈ b ∧ containsKey a p.1 = false) := by
  unfold spreadFields at h
  rcases List.mem_append.mp h with h | h
  · obtain ⟨q, hq, he⟩ := List.mem_map.mp h
    exact Or.inl ⟨q, hq, he.symm⟩
  · have h2 := List.mem_filter.mp h
    refine Or.inr ⟨h2.1, ?_⟩
    have := h2.2
    simp at this
    exact this

/-! ### The saturation lemma: re-merging a candidate into a record it already
saturates reproduces the record exactly. -/

theorem setField_spread_cancel {F fc : List (String × Json)} {t : Json}
    (hsub : ∀ p ∈ fc, containsKey F p.1 = true)
    (hval : ∀ p ∈ F, p.1 ≠ "themes" → containsKey fc p.1 = true → findVal fc p.1 = some p.2)
    (hth : ∀ p ∈ F, p.1 = "themes" → p.2 = t)
    (hthk : containsKey F "themes" = true) :
    setField (spreadFields F fc) "themes" t = F := by
  have hfilter : fc.filter (fun p => !containsKey F p.1) = [] := by
    rw [List.filter_eq_nil_iff]
    intro p hp
    simp [hsub p hp]
  unfold spreadFields
  rw [hfilter, List.append_nil]
  unfold setField
  rw [if_pos (by
    rw [containsKey_map_fst_preserved (fun p => (p.1, (findVal fc p.1).getD p.2))
      (fun p => rfl)]
    exact hthk)]
  rw [List.map_map]
  have : ∀ p ∈ F,
      ((fun p : String × Json => if p.1 = "themes" then (p.1, t) else p) ∘
        (fun p : String × Json => (p.1, (findVal fc p.1).getD p.2))) p = id p := by
    intro p hp
    by_cases hpth : p.1 = "themes"
    · have h2 := hth p hp hpth
      simp only [Function.comp_apply, if_pos hpth, id_eq]
      rw [← h2]
    · simp only [Function.comp_apply, if_neg hpth, id_eq]
      cases hck : containsKey fc p.1
      · rw [findVal_none_of_not_containsKey hck, Option.getD_none]
      · rw [hval p hp hpth hck, Option.getD_some]

  rw [List.map_congr_left this, List.map_id]

theorem getField_obj (fs : List (String × Json)) (k : String) :
    getField (Json.obj fs) k = findVal fs k := rfl

theorem saturated_mergedRecord {c : Json} (e : Json) (hc : nodupKeys c) :
    Saturated (mergedRecord e c) c := by
  unfold Saturated
  conv_lhs => rw [mergedRecord]
  rw [getField_mergedRecord_themes]
  rw [orEmptyArray_some_of_truthy (truthy_orEmptyArray _)]
  show Json.obj (setField (spreadFields (objFields (mergedRecord e c)) (objFields c))
      "themes" (orEmptyArray (getField e "themes"))) = mergedRecord e c
  conv_rhs => rw [mergedRecord]
  refine congrArg Json.obj ?_
  have hF : objFields (mergedRecord e c) =
      setField (spreadFields (objFields e) (objFields c)) "themes"
        (orEmptyArray (getField e "themes")) := rfl
  rw [hF]
  apply setField_spread_cancel
  · intro p hp
    apply containsKey_setField_of
    rw [containsKey_spreadFields]
    rw [containsKey_of_mem hp]
    simp
  · intro p hp hpth hck
    have hmem := mem_setField_ne hp hpth
    rcases mem_spreadFields hmem with ⟨q, hq, he⟩ | ⟨hmem2, _⟩
    · have hq1 : p.1 = q.1 := by rw [he]
      rw [hq1] at hck ⊢
      cases hf : findVal (objFields c) q.1
      · rw [containsKey_eq_isSome_findVal, hf] at hck
        cases hck
      · rw [he]
        simp [hf]
    · exact findVal_eq_of_nodup hc hmem2
  · intro p hp hpth
    exact mem_setField_key hp hpth
  · exact containsKey_setField_self _ _ _

theorem saturated_self {c : Json} {ts : List Json} (hc : nodupKeys c)
    (ht : getField c "themes" = some (Json.arr ts)) : Saturated c c := by
  cases c with
  | obj fc =>
      unfold Saturated
      rw [mergedRecord, getField_obj] at *
      rw [ht, orEmptyArray_arr]
      refine congrArg Json.obj ?_
      apply setField_spread_cancel
      · intro p hp
        exact containsKey_of_mem hp
      · intro p hp _ _
        exact findVal_eq_of_nodup hc hp
      · intro p hp hpth
        have h2 := findVal_eq_of_nodup hc hp
        rw [hpth] at h2
        simp only [objFields] at h2
        rw [ht] at h2
        exact (Option.some.inj h2).symm
      · rw [containsKey_eq_isSome_findVal]
        simp only [objFields]
        rw [ht]
        rfl
  | null => cases ht
  | bool b => cases ht
  | num n => cases ht
  | str s => cases ht
  | arr xs => cases ht

/-! ### Map and production-index lemmas -/

theorem mapGet_nil (k : Json) : mapGet [] k = none := rfl

theorem mapGet_cons (p : Json × Nat) (m : List (Json × Nat)) (k : Json) :
    mapGet (p :: m) k = if p.1 = k then some p.2 else mapGet m k := by
  by_cases h : p.1 = k <;> simp [mapGet, List.find?_cons, h]

theorem mapGet_isSome_any (m : List (Json × Nat)) (k : Json) :
    (m.any (fun p => p.1 = k)) = (mapGet m k).isSome := by
  induction m with
  | nil => rfl
  | cons p m ih =>
      rw [List.any_cons, mapGet_cons]
      by_cases h : p.1 = k <;> simp [h, ih]

theorem mapGet_append (a b : List (Json × Nat)) (k : Json) :
    mapGet (a ++ b) k = ((mapGet a k).orElse (fun _ => mapGet b k)) := by
  induction a with
  | nil => simp [mapGet]
  | cons p a ih =>
      rw [List.cons_append, mapGet_cons, mapGet_cons]
      by_cases h : p.1 = k <;> simp [h, ih]

theorem mapGet_map_set_self {m : List (Json × Nat)} {k : Json} (v : Nat)
    (h : m.any (fun p => p.1 = k) = true) :
    mapGet (m.map (fun p => if p.1 = k then (p.1, v) else p)) k = some v := by
  induction m with
  | nil => cases h
  | cons p m ih =>
      rw [List.any_cons] at h
      by_cases hp : p.1 = k
      · rw [List.map_cons, if_pos hp, mapGet_cons]
        simp [hp]
      · rw [List.map_cons, if_neg hp, mapGet_cons, if_neg hp]
        exact ih (by simpa [hp] using h)

theorem mapGet_map_set_ne {m : List (Json × Nat)} {k k2 : Json} (v : Nat)
    (h : k2 ≠ k) :
    mapGet (m.map (fun p => if p.1 = k then (p.1, v) else p)) k2 = mapGet m k2 := by
  induction m with
  | nil => rfl
  | cons p m ih =>
      by_cases hp : p.1 = k
      · rw [List.map_cons, if_pos hp, mapGet_cons, mapGet_cons]
        have hp2 : p.1 ≠ k2 := by rw [hp]; exact fun he => h he.symm
        simp [hp2, ih]
      · rw [List.map_cons, if_neg hp, mapGet_cons, mapGet_cons]
        by_cases hp2 : p.1 = k2 <;> simp [hp2, ih]

theorem mapGet_mapSet (m : List (Json × Nat)) (k : Json) (v : Nat) (k2 : Json) :
    mapGet (mapSet m k v) k2 = if k2 = k then some v else mapGet m k2 := by
  unfold mapSet
  by_cases ha : m.any (fun p => p.1 = k) = true
  · rw [if_pos ha]
    by_cases h2 : k2 = k
    · subst h2
      rw [if_pos rfl]
      exact mapGet_map_set_self v ha
    · rw [if_neg h2]
      exact mapGet_map_set_ne v h2
  · rw [if_neg ha, mapGet_append]
    by_cases h2 : k2 = k
    · subst h2
      have hn : mapGet m k2 = none := by
        rw [← Option.not_isSome_iff_eq_none, ← mapGet_isSome_any]
        simpa using ha
      rw [hn, if_pos rfl]
      simp [mapGet_cons]
    · rw [if_neg h2]
      have hk : k ≠ k2 := fun he => h2 he.symm
      cases hf : mapGet m k2
      · simp [mapGet_cons, mapGet_nil, hk]
      · simp

/-- The position `buildIndex` ends up storing for an id: the LAST position in
the list whose record has that (truthy) id, since later `set`s win. -/
def lastIdIdx (k : Json) : List Json → Option Nat
  | [] => none
  | p :: rest =>
      match lastIdIdx k rest with
      | some j => some (j + 1)
      | none => if getField p "id" = some k ∧ truthy k = true then some 0 else none

theorem buildIndexFrom_get (l : List Json) : ∀ (i0 : Nat) (m : List (Json × Nat)) (k : Json),
    mapGet (buildIndexFrom i0 m l) k =
      match lastIdIdx k l with
      | some j => some (i0 + j)
      | none => mapGet m k := by
  induction l with
  | nil => intro i0 m k; rfl
  | cons p rest ih =>
      intro i0 m k
      rw [buildIndexFrom, ih]
      cases hl : lastIdIdx k rest
      · simp only [lastIdIdx, hl]
        by_cases hp : getField p "id" = some k ∧ truthy k = true
        · rw [if_pos hp]
          obtain ⟨hp1, hp2⟩ := hp
          rw [hp1]
          show mapGet (if truthy k = true then mapSet m k i0 else m) k = some (i0 + 0)
          rw [if_pos hp2, mapGet_mapSet, if_pos rfl]
          rfl
        · rw [if_neg hp]
          cases hg : getField p "id"
          · rfl
          · rename_i v
            show mapGet (if truthy v = true then mapSet m v i0 else m) k = mapGet m k
            by_cases hv : truthy v = true
            · rw [if_pos hv, mapGet_mapSet]
              have hkv : k ≠ v := by
                intro he
                subst he
                exact hp ⟨hg, hv⟩
              rw [if_neg hkv]
            · rw [if_neg hv]
      · rename_i j
        simp only [lastIdIdx, hl]
        have harith : i0 + 1 + j = i0 + (j + 1) := by omega
        rw [harith]

theorem buildIndex_get (ps : List Json) (k : Json) :
    mapGet (buildIndex ps) k = lastIdIdx k ps := by
  unfold buildIndex
  rw [buildIndexFrom_get]
  cases h : lastIdIdx k ps
  · rfl
  · simp

theorem lastIdIdx_none_spec {k : Json} : ∀ {l : List Json}, lastIdIdx k l = none →
    ∀ j, j < l.length →
      ¬(getField (l.getD j Json.null) "id" = some k ∧ truthy k = true) := by
  intro l
  induction l with
  | nil =>
      intro h j hj
      simp at hj
  | cons p rest ih =>
      intro h j hj
      rw [lastIdIdx] at h
      cases hl : lastIdIdx k rest
      · rw [hl] at h
        by_cases hp : getField p "id" = some k ∧ truthy k = true
        · rw [if_pos hp] at h
          cases h
        · cases j with
          | zero => simpa using hp
          | succ j3 =>
              have h3 := ih hl j3 (by simpa using hj)
              simpa using h3
      · rw [hl] at h
        cases h

theorem lastIdIdx_some_spec {k : Json} : ∀ {l : List Json} {j : Nat},
    lastIdIdx k l = some j →
      j < l.length ∧ getField (l.getD j Json.null) "id" = some k ∧ truthy k = true ∧
        ∀ j2, j < j2 → j2 < l.length → getField (l.getD j2 Json.null) "id" ≠ some k := by
  intro l
  induction l with
  | nil =>
      intro j h
      cases h
  | cons p rest ih =>
      intro j h
      rw [lastIdIdx] at h
      cases hl : lastIdIdx k rest
      · rw [hl] at h
        by_cases hp : getField p "id" = some k ∧ truthy k = true
        · rw [if_pos hp] at h
          cases h
          refine ⟨by simp, hp.1, hp.2, ?_⟩
          intro j2 hj2 hlen
          obtain ⟨j3, rfl⟩ : ∃ j3, j2 = j3 + 1 := ⟨j2 - 1, by omega⟩
          intro hid
          have hcontra := lastIdIdx_none_spec hl j3 (by simpa using hlen)
          exact hcontra ⟨by simpa using hid, hp.2⟩
        · rw [if_neg hp] at h
          cases h
      · rename_i j0
        rw [hl] at h
        cases h
        obtain ⟨hlen, hid, htr, hlast⟩ := ih hl
        refine ⟨by simpa using hlen, by simpa using hid, htr, ?_⟩
        intro j2 hj2 hlen2
        obtain ⟨j3, rfl⟩ : ∃ j3, j2 = j3 + 1 := ⟨j2 - 1, by omega⟩
        have h4 := hlast j3 (by omega) (by simpa using hlen2)
        simpa using h4

theorem lastIdIdx_append (k : Json) (u w : List Json) :
    lastIdIdx k (u ++ w) =
      match lastIdIdx k w with
      | some j => some (u.length + j)
      | none => lastIdIdx k u := by
  induction u with
  | nil =>
      cases h : lastIdIdx k w <;> simp [h, lastIdIdx]
  | cons p u ih =>
      rw [List.cons_append, lastIdIdx, ih, lastIdIdx]
      cases hw : lastIdIdx k w
      · cases hu : lastIdIdx k u <;> simp [hu]
      · rename_i j
        have harith : u.length + j + 1 = (p :: u).length + j := by
          simp
          omega
        simp [harith]

theorem lastIdIdx_congr {k : Json} : ∀ {l1 l2 : List Json}, l1.length = l2.length →
    (∀ j, j < l1.length →
      getField (l1.getD j Json.null) "id" = getField (l2.getD j Json.null) "id") →
    lastIdIdx k l1 = lastIdIdx k l2 := by
  intro l1
  induction l1 with
  | nil =>
      intro l2 hlen _
      have : l2 = [] := List.length_eq_zero.mp hlen.symm
      rw [this]
  | cons p l1 ih =>
      intro l2 hlen hids
      cases l2 with
      | nil => simp at hlen
      | cons q l2 =>
          rw [lastIdIdx, lastIdIdx,
            ih (by simpa using hlen)
              (fun j hj => by
                have h2 := hids (j + 1) (by simpa using hj)
                simpa using h2)]
          cases h : lastIdIdx k l2
          · have h0 := hids 0 (by simp)
            simp only [List.getD_cons_zero] at h0
            rw [h0]
          · rfl

theorem idsOf_nil : idsOf [] = [] := rfl

theorem idsOf_cons (r : Json) (l : List Json) :
    idsOf (r :: l) =
      match getField r "id" with
      | some a => a :: idsOf l
      | none => idsOf l := by
  cases h : getField r "id" <;> simp [idsOf, h]

theorem idsOf_append (u w : List Json) : idsOf (u ++ w) = idsOf u ++ idsOf w := by
  simp [idsOf]

theorem mem_idsOf {a : Json} {l : List Json} :
    a ∈ idsOf l ↔ ∃ r ∈ l, getField r "id" = some a := by
  simp [idsOf, List.mem_filterMap]

theorem buildIndex_sound {ps : List Json} {k : Json} {i : Nat}
    (h : mapGet (buildIndex ps) k = some i) :
    i < ps.length ∧ getField (ps.getD i Json.null) "id" = some k ∧ truthy k = true := by
  rw [buildIndex_get] at h
  obtain ⟨h1, h2, h3, _⟩ := lastIdIdx_some_spec h
  exact ⟨h1, h2, h3⟩

theorem buildIndex_none_notin {ps : List Json} {k : Json}
    (h : mapGet (buildIndex ps) k = none) (htr : truthy k = true) : k ∉ idsOf ps := by
  rw [buildIndex_get] at h
  intro hmem
  obtain ⟨r, hr, hid⟩ := mem_idsOf.mp hmem
  obtain ⟨n, hn⟩ := List.mem_iff_getElem.mp hr
  obtain ⟨hlt, hget⟩ := hn
  exact lastIdIdx_none_spec h n hlt ⟨by rw [List.getD_eq_getElem _ _ hlt, hget]; exact hid, htr⟩

theorem lastIdIdx_find_unique {k : Json} {l : List Json} {c : Json}
    (hmem : c ∈ l) (hid : getField c "id" = some k) (htr : truthy k = true)
    (huniq : ∀ d ∈ l, getField d "id" = some k → d = c) :
    ∃ j, lastIdIdx k l = some j ∧ j < l.length ∧ l.getD j Json.null = c := by
  cases hidx : lastIdIdx k l with
  | none =>
      obtain ⟨n, hlt, hget⟩ := List.mem_iff_getElem.mp hmem
      exact absurd ⟨by rw [List.getD_eq_getElem _ _ hlt, hget]; exact hid, htr⟩
        (lastIdIdx_none_spec hidx n hlt)
  | some j =>
      obtain ⟨hjlen, hjid, _, _⟩ := lastIdIdx_some_spec hidx
      have hrecmem : l.getD j Json.null ∈ l := by
        rw [List.getD_eq_getElem _ _ hjlen]
        exact List.getElem_mem hjlen
      exact ⟨j, rfl, hjlen, huniq _ hrecmem hjid⟩

theorem eq_of_nodup_ids : ∀ {l : List Json}, (idsOf l).Nodup →
    ∀ {c d v : Json}, c ∈ l → d ∈ l →
      getField c "id" = some v → getField d "id" = some v → c = d := by
  intro l
  induction l with
  | nil =>
      intro _ c d v hc hd
      cases hc
  | cons x l ih =>
      intro hn c d v hcl hdl hc hd
      have htail : (idsOf l).Nodup := by
        rw [idsOf_cons] at hn
        cases h : getField x "id"
        · rw [h] at hn
          exact hn
        · rw [h] at hn
          exact (List.nodup_cons.mp hn).2
      rcases List.mem_cons.mp hcl with rfl | hcl2
      · rcases List.mem_cons.mp hdl with rfl | hdl2
        · rfl
        · exfalso
          rw [idsOf_cons, hc] at hn
          have : v ∈ idsOf l := mem_idsOf.mpr ⟨d, hdl2, hd⟩
          exact (List.nodup_cons.mp hn).1 this
      · rcases List.mem_cons.mp hdl with rfl | hdl2
        · exfalso
          rw [idsOf_cons, hd] at hn
          have : v ∈ idsOf l := mem_idsOf.mpr ⟨c, hcl2, hc⟩
          exact (List.nodup_cons.mp hn).1 this
        · exact ih htail hcl2 hdl2 hc hd

/-! ### Step lemmas for processCandidate -/

theorem wf_spec {c : Json} (h : isWellFormedCandidate c = true) :
    (truthy c && isObjectType c) = true ∧ getField c "id" = some (candidateId c) ∧
      truthy (candidateId c) = true := by
  unfold isWellFormedCandidate at h
  cases hg : getField c "id"
  · rw [hg] at h
    simp at h
  · rename_i v
    rw [hg] at h
    unfold candidateId
    rw [hg]
    simp only [Option.getD_some]
    rw [Bool.and_eq_true] at h
    exact ⟨h.1, trivial, h.2⟩

theorem processCandidate_skip {idx : List (Json × Nat)} {st : SyncState} {c : Json}
    (h : isWellFormedCandidate c = false) : processCandidate idx st c = Except.ok st := by
  unfold processCandidate
  unfold isWellFormedCandidate at h
  cases hb : (truthy c && isObjectType c)
  · simp only [Bool.false_eq_true, if_false]
  · rw [if_pos rfl]
    cases hg : getField c "id"
    · rfl
    · rename_i v
      rw [hb, hg] at h
      simp at h
      show (if truthy v = true then _ else Except.ok st) = Except.ok st
      rw [if_neg (by simp [h])]

theorem processCandidate_new {idx : List (Json × Nat)} {st : SyncState} {c : Json}
    (hwf : isWellFormedCandidate c = true) (hm : mapGet idx (candidateId c) = none) :
    processCandidate idx st c =
      Except.ok { st with productions := st.productions ++ [c],
                          createdCount := st.createdCount + 1 } := by
  obtain ⟨hb, hg, htr⟩ := wf_spec hwf
  unfold processCandidate
  rw [if_pos hb, hg]
  show (if truthy (candidateId c) = true then _ else _) = _
  rw [if_pos htr, hm]

theorem processCandidate_matched {idx : List (Json × Nat)} {st : SyncState} {c : Json}
    {i : Nat} (hwf : isWellFormedCandidate c = true)
    (hm : mapGet idx (candidateId c) = some i) :
    processCandidate idx st c = mergeMatched st i c := by
  obtain ⟨hb, hg, htr⟩ := wf_spec hwf
  unfold processCandidate
  rw [if_pos hb, hg]
  show (if truthy (candidateId c) = true then _ else _) = _
  rw [if_pos htr, hm]

theorem mergeMatched_ok_spec {st : SyncState} {i : Nat} {c : Json} {st2 : SyncState}
    (h : mergeMatched st i c = Except.ok st2) :
    (∃ ts, orEmptyArray (getField (st.productions.getD i Json.null) "themes") = Json.arr ts) ∧
    st2.themesUnchangedCount = st.themesUnchangedCount + 1 ∧
    st2.createdCount = st.createdCount ∧
    ((mergedRecord (st.productions.getD i Json.null) c = st.productions.getD i Json.null ∧
       st2.productions = st.productions ∧ st2.updatedCount = st.updatedCount) ∨
     (mergedRecord (st.productions.getD i Json.null) c ≠ st.productions.getD i Json.null ∧
       st2.productions = st.productions.set i (mergedRecord (st.productions.getD i Json.null) c) ∧
       st2.updatedCount = st.updatedCount + 1)) := by
  simp only [mergeMatched] at h
  rw [getField_mergedRecord_themes, orEmptyArray_some_of_truthy (truthy_orEmptyArray _)] at h
  cases h1 : areArraysEqual (orEmptyArray (getField (st.productions.getD i Json.null) "themes"))
      (orEmptyArray (getField c "themes"))
  · rw [h1] at h
    cases h
  · rename_i b1
    rw [h1] at h
    cases h2 : areArraysEqual (orEmptyArray (getField (st.productions.getD i Json.null) "themes"))
        (orEmptyArray (getField (st.productions.getD i Json.null) "themes"))
    · rw [h2] at h
      cases h
    · rename_i b2
      rw [h2] at h
      obtain ⟨⟨ts, hts⟩, hb2⟩ := areArraysEqual_self_ok h2
      subst hb2
      refine ⟨⟨ts, hts⟩, ?_⟩
      simp only [normalizeRecord, if_true] at h
      by_cases hm : mergedRecord (st.productions.getD i Json.null) c =
          st.productions.getD i Json.null
      · rw [if_pos hm] at h
        cases b1 <;> simp only [Bool.false_eq_true, if_false, if_true] at h <;>
          cases h <;> exact ⟨rfl, rfl, Or.inl ⟨hm, rfl, rfl⟩⟩
      · rw [if_neg hm] at h
        cases b1 <;> simp only [Bool.false_eq_true, if_false, if_true] at h <;>
          cases h <;> exact ⟨rfl, rfl, Or.inr ⟨hm, rfl, rfl⟩⟩

theorem mergeMatched_isOk_of_arr {st : SyncState} {i : Nat} {c : Json} {ts : List Json}
    (harr : orEmptyArray (getField (st.productions.getD i Json.null) "themes") = Json.arr ts) :
    ∃ st2, mergeMatched st i c = Except.ok st2 := by
  simp only [mergeMatched]
  rw [getField_mergedRecord_themes, orEmptyArray_some_of_truthy (truthy_orEmptyArray _)]
  rw [harr]
  obtain ⟨b1, hb1⟩ := areArraysEqual_left_arr_isOk ts (orEmptyArray (getField c "themes"))
  rw [hb1]
  obtain ⟨b2, hb2⟩ := areArraysEqual_left_arr_isOk ts (Json.arr ts)
  rw [hb2]
  cases b1 <;> cases b2 <;> simp only [Bool.false_eq_true, if_false, if_true] <;>
    split <;> exact ⟨_, rfl⟩

theorem processCandidate_cases {idx : List (Json × Nat)} {st : SyncState} {c : Json}
    {st2 : SyncState} (h : processCandidate idx st c = Except.ok st2) :
    (isWellFormedCandidate c = false ∧ st2 = st) ∨
    (isWellFormedCandidate c = true ∧ mapGet idx (candidateId c) = none ∧
      st2 = { st with productions := st.productions ++ [c],
                      createdCount := st.createdCount + 1 }) ∨
    (∃ i, isWellFormedCandidate c = true ∧ mapGet idx (candidateId c) = some i ∧
      mergeMatched st i c = Except.ok st2) := by
  by_cases hwf : isWellFormedCandidate c = true
  · cases hm : mapGet idx (candidateId c)
    · rw [processCandidate_new hwf hm] at h
      cases h
      exact Or.inr (Or.inl ⟨hwf, rfl, rfl⟩)
    · rename_i i
      rw [processCandidate_matched hwf hm] at h
      exact Or.inr (Or.inr ⟨i, hwf, rfl, h⟩)
  · rw [processCandidate_skip (by simpa using hwf)] at h
    cases h
    exact Or.inl ⟨by simpa using hwf, rfl⟩

theorem processCandidate_length {idx : List (Json × Nat)} {st : SyncState} {c : Json}
    {st2 : SyncState} (h : processCandidate idx st c = Except.ok st2) :
    st.productions.length ≤ st2.productions.length := by
  rcases processCandidate_cases h with ⟨_, rfl⟩ | ⟨_, _, rfl⟩ | ⟨i, _, _, hmm⟩
  · exact Nat.le_refl _
  · simp
  · obtain ⟨_, _, _, hd⟩ := mergeMatched_ok_spec hmm
    rcases hd with ⟨_, hp, _⟩ | ⟨_, hp, _⟩
    · rw [hp]
    · rw [hp, List.length_set]

theorem processCandidate_no_touch {idx : List (Json × Nat)} {st : SyncState} {c : Json}
    {st2 : SyncState} {i : Nat} (h : processCandidate idx st c = Except.ok st2)
    (hi : i < st.productions.length)
    (hnt : isWellFormedCandidate c = true → mapGet idx (candidateId c) ≠ some i) :
    st2.productions.getD i Json.null = st.productions.getD i Json.null := by
  rcases processCandidate_cases h with ⟨_, rfl⟩ | ⟨_, _, rfl⟩ | ⟨i2, hwf, hm, hmm⟩
  · rfl
  · exact List.getD_append _ _ _ _ hi
  · obtain ⟨_, _, _, hd⟩ := mergeMatched_ok_spec hmm
    rcases hd with ⟨_, hp, _⟩ | ⟨_, hp, _⟩
    · rw [hp]
    · rw [hp]
      have hne : i2 ≠ i := fun he => hnt hwf (he ▸ hm)
      rw [List.getD_eq_getElem?_getD, List.getElem?_set_ne hne, ← List.getD_eq_getElem?_getD]

theorem processCandidate_touch {idx : List (Json × Nat)} {st : SyncState} {c : Json}
    {st2 : SyncState} {i : Nat} (h : processCandidate idx st c = Except.ok st2)
    (hwf : isWellFormedCandidate c = true) (hm : mapGet idx (candidateId c) = some i)
    (hi : i < st.productions.length) :
    st2.productions.getD i Json.null = mergedRecord (st.productions.getD i Json.null) c ∧
    (∃ ts, orEmptyArray (getField (st.productions.getD i Json.null) "themes") = Json.arr ts) := by
  rw [processCandidate_matched hwf hm] at h
  obtain ⟨hts, _, _, hd⟩ := mergeMatched_ok_spec h
  refine ⟨?_, hts⟩
  rcases hd with ⟨hmerged, hp, _⟩ | ⟨_, hp, _⟩
  · rw [hp, hmerged]
  · rw [hp, List.getD_eq_getElem?_getD, List.getElem?_set_eq_of_lt _ hi]
    rfl

/-! ### Loop lemmas -/

theorem mergeLoop_nil (idx : List (Json × Nat)) (st : SyncState) :
    mergeLoop idx st [] = Except.ok st := rfl

theorem mergeLoop_cons (idx : List (Json × Nat)) (st : SyncState) (c : Json)
    (rest : List Json) :
    mergeLoop idx st (c :: rest) =
      match processCandidate idx st c with
      | .error e => .error e
      | .ok st2 => mergeLoop idx st2 rest := rfl

theorem mergeLoop_append (idx : List (Json × Nat)) (u : List Json) :
    ∀ (w : List Json) (st : SyncState), mergeLoop idx st (u ++ w) =
      match mergeLoop idx st u with
      | .error e => .error e
      | .ok st2 => mergeLoop idx st2 w := by
  induction u with
  | nil => intro w st; rfl
  | cons c u ih =>
      intro w st
      rw [List.cons_append, mergeLoop_cons, mergeLoop_cons]
      cases h : processCandidate idx st c
      · rfl
      · show mergeLoop idx _ (u ++ w) =
          match mergeLoop idx _ u with
          | Except.error e => Except.error e
          | Except.ok st2 => mergeLoop idx st2 w
        exact ih w _

theorem mergeLoop_length {idx : List (Json × Nat)} : ∀ {cs : List Json} {st st2 : SyncState},
    mergeLoop idx st cs = Except.ok st2 → st.productions.length ≤ st2.productions.length := by
  intro cs
  induction cs with
  | nil =>
      intro st st2 h
      cases h
      exact Nat.le_refl _
  | cons c rest ih =>
      intro st st2 h
      rw [mergeLoop_cons] at h
      cases hp : processCandidate idx st c
      · rw [hp] at h
        cases h
      · rename_i stA
        rw [hp] at h
        exact Nat.le_trans (processCandidate_length hp) (ih h)

theorem mergeLoop_no_touch {idx : List (Json × Nat)} : ∀ {cs : List Json} {st st2 : SyncState}
    {i : Nat}, mergeLoop idx st cs = Except.ok st2 → i < st.productions.length →
    (∀ c ∈ cs, isWellFormedCandidate c = true → mapGet idx (candidateId c) ≠ some i) →
    st2.productions.getD i Json.null = st.productions.getD i Json.null := by
  intro cs
  induction cs with
  | nil =>
      intro st st2 i h _ _
      cases h
      rfl
  | cons c rest ih =>
      intro st st2 i h hi hnt
      rw [mergeLoop_cons] at h
      cases hp : processCandidate idx st c
      · rw [hp] at h
        cases h
      · rename_i stA
        rw [hp] at h
        have h1 := processCandidate_no_touch hp hi
          (fun hwf => hnt c (List.mem_cons_self c rest) hwf)
        have h2 := ih h (Nat.lt_of_lt_of_le hi (processCandidate_length hp))
          (fun d hd hwf => hnt d (List.mem_cons_of_mem c hd) hwf)
        rw [h2, h1]

theorem mergeLoop_themes_preserved {idx : List (Json × Nat)} : ∀ {cs : List Json}
    {st st2 : SyncState} {i : Nat} {t : Json},
    mergeLoop idx st cs = Except.ok st2 → i < st.productions.length →
    getField (st.productions.getD i Json.null) "themes" = some t → truthy t = true →
    getField (st2.productions.getD i Json.null) "themes" = some t := by
  intro cs
  induction cs with
  | nil =>
      intro st st2 i t h _ ht _
      cases h
      exact ht
  | cons c rest ih =>
      intro st st2 i t h hi ht htr
      rw [mergeLoop_cons] at h
      cases hp : processCandidate idx st c
      · rw [hp] at h
        cases h
      · rename_i stA
        rw [hp] at h
        have hiA : i < stA.productions.length :=
          Nat.lt_of_lt_of_le hi (processCandidate_length hp)
        by_cases htouch : isWellFormedCandidate c = true ∧ mapGet idx (candidateId c) = some i
        · obtain ⟨hwf, hm⟩ := htouch
          have h1 := (processCandidate_touch hp hwf hm hi).1
          have h2 : getField (stA.productions.getD i Json.null) "themes" = some t := by
            rw [h1, getField_mergedRecord_themes, ht, orEmptyArray_some_of_truthy htr]
          exact ih h hiA h2 htr
        · have h1 := processCandidate_no_touch hp hi
            (fun hwf hm => htouch ⟨hwf, hm⟩)
          exact ih h hiA (by rw [h1]; exact ht) htr

/-! ### Structural fold lemma: what a whole run does to the productions list -/

theorem newcomers_nil (idx : List (Json × Nat)) : newcomers idx [] = [] := rfl

theorem newcomers_cons (idx : List (Json × Nat)) (c : Json) (rest : List Json) :
    newcomers idx (c :: rest) =
      if (isWellFormedCandidate c && (mapGet idx (candidateId c)).isNone) = true
      then c :: newcomers idx rest else newcomers idx rest := by
  simp [newcomers, List.filter_cons]

theorem mergeLoop_structure {idx : List (Json × Nat)} {N : Nat}
    (hidx : ∀ v i, mapGet idx v = some i → i < N) :
    ∀ {cs : List Json} {st st2 : SyncState},
    mergeLoop idx st cs = Except.ok st2 →
    N ≤ st.productions.length →
    (∀ v i, mapGet idx v = some i →
      getField (st.productions.getD i Json.null) "id" = some v) →
    st2.productions.drop N = st.productions.drop N ++ newcomers idx cs ∧
    (∀ j, j < N → getField (st2.productions.getD j Json.null) "id" =
      getField (st.productions.getD j Json.null) "id") ∧
    st2.createdCount = st.createdCount + (newcomers idx cs).length ∧
    N ≤ st2.productions.length ∧
    (∀ v i, mapGet idx v = some i →
      getField (st2.productions.getD i Json.null) "id" = some v) := by
  intro cs
  induction cs with
  | nil =>
      intro st st2 h hN hH
      cases h
      exact ⟨by simp [newcomers_nil], fun j _ => rfl, by simp [newcomers_nil], hN, hH⟩
  | cons c rest ih =>
      intro st st2 h hN hH
      rw [mergeLoop_cons] at h
      cases hp : processCandidate idx st c
      · rw [hp] at h
        cases h
      · rename_i stA
        rw [hp] at h
        rcases processCandidate_cases hp with ⟨hwf, rfl⟩ | ⟨hwf, hm, rfl⟩ |
          ⟨i, hwf, hm, hmm⟩
        · -- skipped candidate: not well-formed, nothing changes
          have hnc : newcomers idx (c :: rest) = newcomers idx rest := by
            rw [newcomers_cons, if_neg (by simp [hwf])]
          obtain ⟨ha, hb, hc2, hd, he⟩ := ih h hN hH
          exact ⟨by rw [hnc]; exact ha, hb, by rw [hnc]; exact hc2, hd, he⟩
        · -- created candidate: appended verbatim
          have hnc : newcomers idx (c :: rest) = c :: newcomers idx rest := by
            rw [newcomers_cons, if_pos (by simp [hwf, hm])]
          have hNA : N ≤ (st.productions ++ [c]).length := by
            rw [List.length_append]
            omega
          have hHA : ∀ v i, mapGet idx v = some i →
              getField ((st.productions ++ [c]).getD i Json.null) "id" = some v := by
            intro v i hv
            rw [List.getD_append _ _ _ _ (Nat.lt_of_lt_of_le (hidx v i hv) hN)]
            exact hH v i hv
          obtain ⟨ha, hb, hc2, hd, he⟩ := ih h hNA hHA
          refine ⟨?_, ?_, ?_, hd, he⟩
          · rw [ha, List.drop_append_of_le_length hN, hnc]
            simp
          · intro j hj
            rw [hb j hj, List.getD_append _ _ _ _ (Nat.lt_of_lt_of_le hj hN)]
          · rw [hc2, hnc]
            simp only [List.length_cons]
            omega
        · -- matched candidate: record i is replaced (or left) in place
          have hiN : i < N := hidx _ _ hm
          have hiL : i < st.productions.length := Nat.lt_of_lt_of_le hiN hN
          have hnc : newcomers idx (c :: rest) = newcomers idx rest := by
            rw [newcomers_cons, if_neg (by simp [hm])]
          obtain ⟨_, _, hcre, hdisj⟩ := mergeMatched_ok_spec hmm
          have hidA : ∀ j, j < N →
              getField (stA.productions.getD j Json.null) "id" =
                getField (st.productions.getD j Json.null) "id" := by
            intro j hj
            rcases hdisj with ⟨_, hpp, _⟩ | ⟨_, hpp, _⟩
            · rw [hpp]
            · by_cases hji : j = i
              · subst hji
                rw [hpp, List.getD_eq_getElem?_getD, List.getElem?_set_eq_of_lt _ hiL]
                have hmid := getField_mergedRecord_id (st.productions.getD j Json.null)
                  (wf_spec hwf).2.1
                rw [show (some (mergedRecord (st.productions.getD j Json.null) c)).getD
                    Json.null = mergedRecord (st.productions.getD j Json.null) c from rfl]
                rw [hmid, hH _ _ hm]
              · rw [hpp, List.getD_eq_getElem?_getD, List.getElem?_set_ne
                  (fun he2 => hji he2.symm), ← List.getD_eq_getElem?_getD]
          have hdropA : stA.productions.drop N = st.productions.drop N := by
            rcases hdisj with ⟨_, hpp, _⟩ | ⟨_, hpp, _⟩
            · rw [hpp]
            · rw [hpp]
              exact List.drop_set_of_lt _ _ hiN
          have hlenA : stA.productions.length = st.productions.length := by
            rcases hdisj with ⟨_, hpp, _⟩ | ⟨_, hpp, _⟩
            · rw [hpp]
            · rw [hpp, List.length_set]
          have hHA : ∀ v i2, mapGet idx v = some i2 →
              getField (stA.productions.getD i2 Json.null) "id" = some v := by
            intro v i2 hv
            rw [hidA i2 (hidx _ _ hv)]
            exact hH v i2 hv
          obtain ⟨ha, hb, hc2, hd, he⟩ := ih h (by omega) hHA
          refine ⟨?_, ?_, ?_, hd, he⟩
          · rw [ha, hdropA, hnc]
          · intro j hj
            rw [hb j hj, hidA j hj]
          · rw [hc2, hcre, hnc]

theorem initState_productions (ps : List Json) : (initState ps).productions = ps := rfl

theorem runMerge_structure {ps cs : List Json} {st : SyncState}
    (h : runMerge ps cs = Except.ok st) :
    st.productions.drop ps.length = newcomers (buildIndex ps) cs ∧
    (∀ j, j < ps.length → getField (st.productions.getD j Json.null) "id" =
      getField (ps.getD j Json.null) "id") ∧
    st.createdCount = (newcomers (buildIndex ps) cs).length ∧
    ps.length ≤ st.productions.length := by
  unfold runMerge at h
  have hidx : ∀ v i, mapGet (buildIndex ps) v = some i → i < ps.length :=
    fun v i hv => (buildIndex_sound hv).1
  have hH : ∀ v i, mapGet (buildIndex ps) v = some i →
      getField (((initState ps).productions).getD i Json.null) "id" = some v :=
    fun v i hv => (buildIndex_sound hv).2.1
  obtain ⟨ha, hb, hc, hd, _⟩ := mergeLoop_structure hidx h (Nat.le_refl _) hH
  rw [initState_productions] at ha hb
  rw [List.drop_length, List.nil_append] at ha
  exact ⟨ha, hb, by simpa [initState] using hc, hd⟩

theorem mem_newcomers {idx : List (Json × Nat)} {cs : List Json} {r : Json}
    (h : r ∈ newcomers idx cs) :
    r ∈ cs ∧ isWellFormedCandidate r = true ∧ mapGet idx (candidateId r) = none := by
  have h2 := List.mem_filter.mp h
  refine ⟨h2.1, ?_, ?_⟩
  · have := h2.2
    rw [Bool.and_eq_true] at this
    exact this.1
  · have := h2.2
    rw [Bool.and_eq_true] at this
    exact Option.isNone_iff_eq_none.mp this.2

theorem idsOf_congr : ∀ {l1 l2 : List Json}, l1.length = l2.length →
    (∀ j, j < l1.length →
      getField (l1.getD j Json.null) "id" = getField (l2.getD j Json.null) "id") →
    idsOf l1 = idsOf l2 := by
  intro l1
  induction l1 with
  | nil =>
      intro l2 hlen _
      rw [(List.length_eq_zero.mp hlen.symm : l2 = [])]
  | cons x l1 ih =>
      intro l2 hlen hids
      cases l2 with
      | nil => simp at hlen
      | cons y l2 =>
          have h0 := hids 0 (by simp)
          simp only [List.getD_cons_zero] at h0
          have htail := @ih l2 (by simpa using hlen)
            (fun j hj => by
              have h2 := hids (j + 1) (by simpa using hj)
              simpa using h2)
          rw [idsOf_cons, idsOf_cons, h0, htail]

theorem idsOf_take_eq {l : List Json} {ps : List Json}
    (hlen : ps.length ≤ l.length)
    (hids : ∀ j, j < ps.length →
      getField (l.getD j Json.null) "id" = getField (ps.getD j Json.null) "id") :
    idsOf (l.take ps.length) = idsOf ps := by
  apply idsOf_congr
  · rw [List.length_take]
    omega
  · intro j hj
    rw [List.length_take] at hj
    have hjp : j < ps.length := by omega
    have : (l.take ps.length).getD j Json.null = l.getD j Json.null := by
      rw [List.getD_eq_getElem?_getD, List.getD_eq_getElem?_getD, List.getElem?_take,
        if_pos hjp]
    rw [this]
    exact hids j hjp

theorem wfIds_cons (c : Json) (rest : List Json) :
    wfIds (c :: rest) =
      if isWellFormedCandidate c = true then (candidateId c) :: wfIds rest
      else wfIds rest := by
  unfold wfIds
  rw [List.filterMap_cons]
  by_cases hwf : isWellFormedCandidate c = true
  · rw [if_pos hwf, if_pos hwf, (wf_spec hwf).2.1]
  · rw [if_neg hwf, if_neg hwf]

theorem idsOf_newcomers_sublist (idx : List (Json × Nat)) :
    ∀ cs : List Json, (idsOf (newcomers idx cs)).Sublist (wfIds cs) := by
  intro cs
  induction cs with
  | nil => exact List.Sublist.refl _
  | cons c rest ih =>
      rw [newcomers_cons, wfIds_cons]
      by_cases hwf : isWellFormedCandidate c = true
      · rw [if_pos hwf]
        cases hn : (mapGet idx (candidateId c)).isNone
        · rw [if_neg (by simp [hn])]
          exact List.Sublist.cons _ ih
        · rw [if_pos (by simp [hwf, hn])]
          rw [idsOf_cons, (wf_spec hwf).2.1]
          exact List.Sublist.cons₂ _ ih
      · rw [if_neg (by simp [hwf]), if_neg hwf]
        exact ih

/-! ### Inverting a successful full run -/

theorem readJsonValue_ok {f : Option Json} {j : Json}
    (h : readJsonValue f = Except.ok j) : f = some j := by
  cases f with
  | none => cases h
  | some x =>
      cases h
      rfl

theorem requireArray_ok {j : Json} {msg : String} {xs : List Json}
    (h : requireArray j msg = Except.ok xs) : j = Json.arr xs := by
  cases j with
  | arr ys =>
      cases h
      rfl
  | null => cases h
  | bool b => cases h
  | num n => cases h
  | str s => cases h
  | obj fs => cases h

theorem runSync_ok_inv {cf pf : Option Json} {la : Option String} {d : Bool} {r : SyncRun}
    (h : runSync cf pf la d = Except.ok r) :
    ∃ lim cs ps, parseLimit la = Except.ok lim ∧ cf = some (Json.arr cs) ∧
      pf = some (Json.arr ps) ∧ runMerge ps (applyLimit lim cs) = Except.ok r.state ∧
      r.totalCandidates = cs.length ∧
      r.written = (if d then none else some r.state.productions) := by
  unfold runSync at h
  split at h
  · cases h
  · rename_i lim h1
    split at h
    · cases h
    · rename_i cj h2
      split at h
      · cases h
      · rename_i pj h3
        split at h
        · cases h
        · rename_i cs h4
          split at h
          · cases h
          · rename_i ps h5
            split at h
            · cases h
            · rename_i st h6
              cases h
              obtain rfl := readJsonValue_ok h2
              obtain rfl := readJsonValue_ok h3
              obtain rfl := requireArray_ok h4
              obtain rfl := requireArray_ok h5
              exact ⟨lim, cs, ps, h1, rfl, rfl, h6, rfl, rfl⟩

/-! ## The claims -/

/-- C1 counterexample: an existing record whose `themes` is `null` (falsy but
present).  The merge stores `themes: []` — not the original record's `themes`
value `null` — so the output `themes` does not equal the existing record's
`themes` for this input, contrary to the claim. -/
theorem claim_C1_counterexample :
    (runMerge [Json.obj [("id", Json.str "a"), ("themes", Json.null)]]
        [Json.obj [("id", Json.str "a"), ("themes", Json.arr [Json.str "y"])]]).map
      SyncState.productions =
      Except.ok [Json.obj [("id", Json.str "a"), ("themes", Json.arr [])]] ∧
    (Json.arr [] : Json) ≠ Json.null := by
  exact ⟨by decide, by decide⟩

/-- C1 (amended): for every candidates list and every limit / dry-run setting,
if the existing record indexed at some id has a TRUTHY `themes` value `t`
(e.g. any array, per the schema), the record at that position in the merge
output still has `themes` equal to `t` — never the candidate's value.  (When
the existing `themes` is absent or falsy the output gets `[]` instead, see
C10.) -/
theorem claim_C1_amended (ps cs : List Json) (la : Option String)
    (d : Bool) (r : SyncRun) (v : Json) (i : Nat) (t : Json)
    (hrun : runSync (some (Json.arr cs)) (some (Json.arr ps)) la d = Except.ok r)
    (hidx : mapGet (buildIndex ps) v = some i)
    (ht : getField (ps.getD i Json.null) "themes" = some t)
    (htr : truthy t = true) :
    getField (r.state.productions.getD i Json.null) "themes" = some t := by
  obtain ⟨lim, cs2, ps2, _, h2, h3, h4, _, _⟩ := runSync_ok_inv hrun
  injection h2 with h2
  injection h3 with h3
  cases h2
  cases h3
  unfold runMerge at h4
  exact mergeLoop_themes_preserved h4 (buildIndex_sound hidx).1 ht htr

/-- C1 witness: concrete instance of the amended claim. -/
theorem claim_C1_witness :
    runSync (some (Json.arr [Json.obj [("id", Json.str "a"),
        ("themes", Json.arr [Json.str "y"])]]))
      (some (Json.arr [Json.obj [("id", Json.str "a"),
        ("themes", Json.arr [Json.str "x"])]])) none false =
      Except.ok ⟨1, ⟨[Json.obj [("id", Json.str "a"), ("themes", Json.arr [Json.str "x"])]],
          0, 0, 1, 1⟩,
        some [Json.obj [("id", Json.str "a"), ("themes", Json.arr [Json.str "x"])]]⟩ ∧
    getField ((⟨1, ⟨[Json.obj [("id", Json.str "a"), ("themes", Json.arr [Json.str "x"])]],
          0, 0, 1, 1⟩,
        some [Json.obj [("id", Json.str "a"),
          ("themes", Json.arr [Json.str "x"])]]⟩ : SyncRun).state.productions.getD 0
        Json.null) "themes" = some (Json.arr [Json.str "x"]) :=
  ⟨by decide,
    claim_C1_amended
      [Json.obj [("id", Json.str "a"), ("themes", Json.arr [Json.str "x"])]]
      [Json.obj [("id", Json.str "a"), ("themes", Json.arr [Json.str "y"])]]
      none false
      ⟨1, ⟨[Json.obj [("id", Json.str "a"), ("themes", Json.arr [Json.str "x"])]],
          0, 0, 1, 1⟩,
        some [Json.obj [("id", Json.str "a"), ("themes", Json.arr [Json.str "x"])]]⟩
      (Json.str "a") 0 (Json.arr [Json.str "x"])
      (by decide) (by decide) (by decide) (by decide)⟩

/-- C2 counterexample: a matched candidate that changes the record.  The
record is replaced and the updated count becomes 1, yet the themes-unchanged
count ALSO becomes 1 (the claim says it must stay 0 in that branch): the
line-117 check runs before the replacement decision and always holds. -/
theorem claim_C2_counterexample :
    (runMerge [Json.obj [("id", Json.str "a"), ("themes", Json.arr [Json.str "x"]),
        ("city", Json.str "NY")]]
        [Json.obj [("id", Json.str "a"), ("city", Json.str "LA")]]).map
      (fun st => (st.updatedCount, st.themesUnchangedCount)) = Except.ok (1, 1) := by
  decide

/-- C2 (amended): for every matched candidate whose processing succeeds, the
themes-unchanged count is incremented in BOTH branches (the line-117
comparison compares the preserved themes with itself); the updated count is
incremented and the record replaced exactly when the merged record differs
from the existing one. -/
theorem claim_C2_amended (idx : List (Json × Nat)) (st st2 : SyncState) (c : Json) (i : Nat)
    (hwf : isWellFormedCandidate c = true)
    (hm : mapGet idx (candidateId c) = some i)
    (h : processCandidate idx st c = Except.ok st2) :
    st2.themesUnchangedCount = st.themesUnchangedCount + 1 ∧
    ((mergedRecord (st.productions.getD i Json.null) c = st.productions.getD i Json.null ∧
       st2.productions = st.productions ∧ st2.updatedCount = st.updatedCount) ∨
     (mergedRecord (st.productions.getD i Json.null) c ≠ st.productions.getD i Json.null ∧
       st2.productions = st.productions.set i
         (mergedRecord (st.productions.getD i Json.null) c) ∧
       st2.updatedCount = st.updatedCount + 1)) := by
  rw [processCandidate_matched hwf hm] at h
  obtain ⟨_, h1, _, h2⟩ := mergeMatched_ok_spec h
  exact ⟨h1, h2⟩

/-- C2 witness: concrete instance of the amended claim (changed branch). -/
theorem claim_C2_witness :
    isWellFormedCandidate (Json.obj [("id", Json.str "a"), ("city", Json.str "LA")]) = true ∧
    (processCandidate [(Json.str "a", 0)]
        (initState [Json.obj [("id", Json.str "a"), ("themes", Json.arr [])]])
        (Json.obj [("id", Json.str "a"), ("city", Json.str "LA")]) =
      Except.ok ⟨[Json.obj [("id", Json.str "a"), ("themes", Json.arr []),
          ("city", Json.str "LA")]], 0, 1, 1, 0⟩) ∧
    (⟨[Json.obj [("id", Json.str "a"), ("themes", Json.arr []), ("city", Json.str "LA")]],
        0, 1, 1, 0⟩ : SyncState).themesUnchangedCount =
      (initState [Json.obj [("id", Json.str "a"), ("themes", Json.arr [])]]).themesUnchangedCount
        + 1 :=
  ⟨by decide, by decide,
    (claim_C2_amended [(Json.str "a", 0)]
      (initState [Json.obj [("id", Json.str "a"), ("themes", Json.arr [])]])
      ⟨[Json.obj [("id", Json.str "a"), ("themes", Json.arr []),
          ("city", Json.str "LA")]], 0, 1, 1, 0⟩
      (Json.obj [("id", Json.str "a"), ("city", Json.str "LA")]) 0
      (by decide) (by decide) (by decide)).1⟩

/-- C3 counterexample: a candidate that is a mapping with an `id` field whose
value is the empty string (falsy).  Its id is absent from the (empty) existing
mapping, yet the merge leaves the output empty and the created count at 0 —
the loop skips any candidate whose id is falsy. -/
theorem claim_C3_counterexample :
    runMerge [] [Json.obj [("id", Json.str "")]] = Except.ok ⟨[], 0, 0, 0, 0⟩ := by
  decide

/-- C3 (amended): for every candidate that is an object with a TRUTHY id
absent from the existing-productions index, the output appends exactly those
candidates verbatim, in candidate order, after the existing entries; the
created count equals their number; and every original position keeps its
record's id.  Falsy-id candidates are skipped. -/
theorem claim_C3_amended (ps cs : List Json) (st : SyncState)
    (h : runMerge ps cs = Except.ok st) :
    st.productions.drop ps.length = newcomers (buildIndex ps) cs ∧
    st.createdCount = (newcomers (buildIndex ps) cs).length ∧
    ps.length ≤ st.productions.length ∧
    (∀ j, j < ps.length → getField (st.productions.getD j Json.null) "id" =
      getField (ps.getD j Json.null) "id") := by
  obtain ⟨ha, hb, hc, hd⟩ := runMerge_structure h
  exact ⟨ha, hc, hd, hb⟩

/-- C3 witness: concrete instance of the amended claim. -/
theorem claim_C3_witness :
    runMerge [Json.obj [("id", Json.str "a")]]
        [Json.obj [("id", Json.str "b"), ("themes", Json.arr [Json.str "z"])]] =
      Except.ok ⟨[Json.obj [("id", Json.str "a")],
        Json.obj [("id", Json.str "b"), ("themes", Json.arr [Json.str "z"])]], 1, 0, 0, 0⟩ ∧
    (⟨[Json.obj [("id", Json.str "a")],
        Json.obj [("id", Json.str "b"), ("themes", Json.arr [Json.str "z"])]],
        1, 0, 0, 0⟩ : SyncState).productions.drop 1 =
      newcomers (buildIndex [Json.obj [("id", Json.str "a")]])
        [Json.obj [("id", Json.str "b"), ("themes", Json.arr [Json.str "z"])]] :=
  ⟨by decide,
    (claim_C3_amended [Json.obj [("id", Json.str "a")]]
      [Json.obj [("id", Json.str "b"), ("themes", Json.arr [Json.str "z"])]]
      ⟨[Json.obj [("id", Json.str "a")],
        Json.obj [("id", Json.str "b"), ("themes", Json.arr [Json.str "z"])]],
        1, 0, 0, 0⟩
      (by decide)).1⟩

/-- C4 counterexample: two candidates with the same fresh id "b" are BOTH
appended (the index is never updated during the loop), so the output contains
the id "b" twice even though the existing array (empty) had unique ids. -/
theorem claim_C4_counterexample :
    (runMerge [] [Json.obj [("id", Json.str "b")], Json.obj [("id", Json.str "b")]]).map
      (fun st => idsOf st.productions) = Except.ok [Json.str "b", Json.str "b"] ∧
    ¬ ([Json.str "b", Json.str "b"] : List Json).Nodup := by
  exact ⟨by decide, by decide⟩

/-- C4 (amended): id uniqueness is preserved provided the well-formed
candidates also carry pairwise-distinct ids: if every id occurs at most once
in the existing array and the well-formed candidates' ids are pairwise
distinct, each id occurs at most once in the merge output. -/
theorem claim_C4_amended (ps cs : List Json) (st : SyncState)
    (hps : (idsOf ps).Nodup) (hcs : (wfIds cs).Nodup)
    (h : runMerge ps cs = Except.ok st) : (idsOf st.productions).Nodup := by
  obtain ⟨ha, hb, _, hd⟩ := runMerge_structure h
  have hdecomp : idsOf st.productions =
      idsOf ps ++ idsOf (newcomers (buildIndex ps) cs) := by
    conv_lhs => rw [← List.take_append_drop ps.length st.productions]
    rw [idsOf_append, ha, idsOf_take_eq hd hb]
  rw [hdecomp, List.nodup_append]
  refine ⟨hps, List.Nodup.sublist (idsOf_newcomers_sublist _ cs) hcs, ?_⟩
  intro a ha2 hb2
  obtain ⟨r, hr, hid⟩ := mem_idsOf.mp hb2
  obtain ⟨_, hwf, hnone⟩ := mem_newcomers hr
  have hcid : candidateId r = a := by
    unfold candidateId
    rw [hid]
    rfl
  have htr : truthy a = true := by
    rw [← hcid]
    exact (wf_spec hwf).2.2
  rw [hcid] at hnone
  exact buildIndex_none_notin hnone htr ha2

/-- C4 witness: concrete instance of the amended claim. -/
theorem claim_C4_witness :
    (idsOf [Json.obj [("id", Json.str "a")]]).Nodup ∧
    runMerge [Json.obj [("id", Json.str "a")]] [Json.obj [("id", Json.str "b")]] =
      Except.ok ⟨[Json.obj [("id", Json.str "a")], Json.obj [("id", Json.str "b")]],
        1, 0, 0, 0⟩ ∧
    (idsOf (⟨[Json.obj [("id", Json.str "a")], Json.obj [("id", Json.str "b")]],
        1, 0, 0, 0⟩ : SyncState).productions).Nodup :=
  ⟨by decide, by decide,
    claim_C4_amended [Json.obj [("id", Json.str "a")]] [Json.obj [("id", Json.str "b")]]
      ⟨[Json.obj [("id", Json.str "a")], Json.obj [("id", Json.str "b")]], 1, 0, 0, 0⟩
      (by decide) (by decide) (by decide)⟩

/-- C5 counterexample: the string "12px" is not a decimal numeral (it contains
a non-digit), so it does not denote a positive integer, yet `parseInt` reads
its digit prefix 12 and the run proceeds instead of failing. -/
theorem claim_C5_counterexample :
    "12px".data.any (fun ch => !isAsciiDigit ch) = true ∧
    parseLimit (some "12px") = Except.ok (some 12) ∧
    runSync (some (Json.arr [])) (some (Json.arr [])) (some "12px") false =
      Except.ok ⟨0, ⟨[], 0, 0, 0, 0⟩, some []⟩ := by
  exact ⟨by decide, by decide, by decide⟩

/-- C5 (amended): a `--limit` string fails the run (before any write) exactly
when `parseInt(s, 10)` is NaN or nonpositive — "0", "-1" and "abc" all fail;
when `parseInt(s, 10)` is a positive N (which for decimal numerals is the
denoted value, but for strings like "12px" is the digit-prefix value), the run
merges exactly the first N candidates in input order. -/
theorem claim_C5_amended :
    (∀ (s : String) (cf pf : Option Json) (d : Bool),
      (jsParseInt10 s = none ∨ (∃ n, jsParseInt10 s = some n ∧ n ≤ 0)) →
      runSync cf pf (some s) d = Except.error ("Invalid --limit value: " ++ s)) ∧
    (∀ (s : String) (n : Int) (cs ps : List Json) (d : Bool),
      jsParseInt10 s = some n → 0 < n →
      runSync (some (Json.arr cs)) (some (Json.arr ps)) (some s) d =
        (runMerge ps (cs.take n.toNat)).map
          (fun st => (⟨cs.length, st, if d then none else some st.productions⟩ : SyncRun))) := by
  constructor
  · intro s cf pf d h
    have hpl : parseLimit (some s) = Except.error ("Invalid --limit value: " ++ s) := by
      show (match jsParseInt10 s with
        | none => Except.error ("Invalid --limit value: " ++ s)
        | some n => if n ≤ 0 then Except.error ("Invalid --limit value: " ++ s)
            else Except.ok (some n)) = Except.error ("Invalid --limit value: " ++ s)
      rcases h with hn | ⟨n, hn, hle⟩
      · rw [hn]
      · rw [hn]
        show (if n ≤ 0 then _ else _) = _
        rw [if_pos hle]
    unfold runSync
    rw [hpl]
  · intro s n cs ps d hn hpos
    have hpl : parseLimit (some s) = Except.ok (some n) := by
      show (match jsParseInt10 s with
        | none => Except.error ("Invalid --limit value: " ++ s)
        | some n2 => if n2 ≤ 0 then Except.error ("Invalid --limit value: " ++ s)
            else Except.ok (some n2)) = Except.ok (some n)
      rw [hn]
      show (if n ≤ 0 then _ else _) = _
      rw [if_neg (by omega)]
    unfold runSync
    rw [hpl]
    show (match runMerge ps (applyLimit (some n) cs) with
      | Except.error e => Except.error e
      | Except.ok st =>
          Except.ok (⟨cs.length, st, if d = true then none
            else some st.productions⟩ : SyncRun)) = _
    have happ : applyLimit (some n) cs = cs.take n.toNat := rfl
    rw [happ]
    cases hr : runMerge ps (cs.take n.toNat)
    · rfl
    · rfl

/-- C5 witness: concrete instances of both halves of the amended claim. -/
theorem claim_C5_witness :
    runSync (some (Json.arr [])) (some (Json.arr [])) (some "0") false =
      Except.error ("Invalid --limit value: " ++ "0") ∧
    runSync (some (Json.arr [Json.obj [("id", Json.str "b")],
        Json.obj [("id", Json.str "c")]]))
      (some (Json.arr [])) (some "1") false =
      (runMerge [] ([Json.obj [("id", Json.str "b")],
        Json.obj [("id", Json.str "c")]].take (Int.toNat 1))).map
        (fun st => (⟨2, st, if false then none else some st.productions⟩ : SyncRun)) :=
  ⟨(claim_C5_amended).1 "0" (some (Json.arr [])) (some (Json.arr [])) false
    (Or.inr ⟨0, by decide, by decide⟩),
   (claim_C5_amended).2 "1" 1 [Json.obj [("id", Json.str "b")],
      Json.obj [("id", Json.str "c")]] [] false (by decide) (by decide)⟩

/-- C7: on the spec's concrete example (existing record "a" with themes ["x"]
and city NY; candidates "a" with themes ["y"], city LA and new "b" with themes
["z"]), the merge outputs exactly the predicted array and reports created 1,
updated 1, theme mismatch 1. -/
theorem claim_C7 :
    runMerge [Json.obj [("id", Json.str "a"), ("themes", Json.arr [Json.str "x"]),
        ("city", Json.str "NY")]]
      [Json.obj [("id", Json.str "a"), ("themes", Json.arr [Json.str "y"]),
        ("city", Json.str "LA")],
       Json.obj [("id", Json.str "b"), ("themes", Json.arr [Json.str "z"])]] =
      Except.ok
        ⟨[Json.obj [("id", Json.str "a"),
            ("themes", Json.arr [Json.str "x"]), ("city", Json.str "LA")],
          Json.obj [("id", Json.str "b"), ("themes", Json.arr [Json.str "z"])]],
         1, 1, 1, 1⟩ := by
  decide

/-- C8: requesting a dry run never writes the output file, for every input,
while every reported statistic (candidates found, created, updated, themes
unchanged, theme mismatches) is identical to what the non-dry run reports. -/
theorem claim_C8 (cf pf : Option Json) (la : Option String) :
    (∀ r, runSync cf pf la true = Except.ok r → r.written = none) ∧
    ((runSync cf pf la true).map
        (fun r => (r.totalCandidates, r.state.createdCount, r.state.updatedCount,
          r.state.themesUnchangedCount, r.state.themeMismatchCount)) =
      (runSync cf pf la false).map
        (fun r => (r.totalCandidates, r.state.createdCount, r.state.updatedCount,
          r.state.themesUnchangedCount, r.state.themeMismatchCount))) := by
  constructor
  · intro r h
    obtain ⟨_, _, _, _, _, _, _, _, hw⟩ := runSync_ok_inv h
    simpa using hw
  · unfold runSync
    split
    · rfl
    · split
      · rfl
      · split
        · rfl
        · split
          · rfl
          · split
            · rfl
            · split
              · rfl
              · rfl

/-- C8 witness: concrete instance. -/
theorem claim_C8_witness :
    runSync (some (Json.arr [Json.obj [("id", Json.str "b")]])) (some (Json.arr [])) none
        true = Except.ok ⟨1, ⟨[Json.obj [("id", Json.str "b")]], 1, 0, 0, 0⟩, none⟩ ∧
    (⟨1, ⟨[Json.obj [("id", Json.str "b")]], 1, 0, 0, 0⟩, none⟩ : SyncRun).written = none :=
  ⟨by decide,
    (claim_C8 (some (Json.arr [Json.obj [("id", Json.str "b")]])) (some (Json.arr []))
      none).1 ⟨1, ⟨[Json.obj [("id", Json.str "b")]], 1, 0, 0, 0⟩, none⟩ (by decide)⟩

/-- C9: a malformed JSON input, a non-array top level in either file, or an
invalid limit value each abort the run with an error before the write step:
nothing is ever written, so the output file keeps its old contents. -/
theorem claim_C9 (cf pf : Option Json) (la : Option String) (d : Bool)
    (h : (∃ e0, parseLimit la = Except.error e0) ∨ cf = none ∨ pf = none ∨
      (∃ j, cf = some j ∧ ∀ xs, j ≠ Json.arr xs) ∨
      (∃ j, pf = some j ∧ ∀ xs, j ≠ Json.arr xs)) :
    (∃ e, runSync cf pf la d = Except.error e) ∧ writtenOf (runSync cf pf la d) = none := by
  have herr : ∃ e, runSync cf pf la d = Except.error e := by
    cases hres : runSync cf pf la d
    · exact ⟨_, rfl⟩
    · rename_i r
      obtain ⟨lim, cs, ps, h1, h2, h3, _, _, _⟩ := runSync_ok_inv hres
      exfalso
      rcases h with ⟨e0, he⟩ | hcf | hpf | ⟨j, hj, hne⟩ | ⟨j, hj, hne⟩
      · rw [h1] at he
        cases he
      · rw [hcf] at h2
        cases h2
      · rw [hpf] at h3
        cases h3
      · rw [hj] at h2
        injection h2 with h2
        exact hne cs h2
      · rw [hj] at h3
        injection h3 with h3
        exact hne ps h3
  obtain ⟨e, he⟩ := herr
  refine ⟨⟨e, he⟩, ?_⟩
  unfold writtenOf
  rw [he]

/-- C9 witness: a malformed candidates file concretely aborts the run. -/
theorem claim_C9_witness :
    (∃ e, runSync none (some (Json.arr [])) none false = Except.error e) ∧
    writtenOf (runSync none (some (Json.arr [])) none false) = none :=
  claim_C9 none (some (Json.arr [])) none false (Or.inr (Or.inl rfl))

/-- C10: a matched candidate whose existing record has no `themes` field (or a
falsy one) always replaces the record: the merged record gains `themes: []`,
differs from the existing record (even for a candidate identical to it), and
the updated count is incremented. -/
theorem claim_C10 (idx : List (Json × Nat)) (st : SyncState) (c : Json) (i : Nat)
    (hwf : isWellFormedCandidate c = true)
    (hm : mapGet idx (candidateId c) = some i)
    (hth : getField (st.productions.getD i Json.null) "themes" = none ∨
      ∃ t, getField (st.productions.getD i Json.null) "themes" = some t ∧
        truthy t = false) :
    ∃ st2, processCandidate idx st c = Except.ok st2 ∧
      getField (mergedRecord (st.productions.getD i Json.null) c) "themes" =
        some (Json.arr []) ∧
      st2.productions = st.productions.set i
        (mergedRecord (st.productions.getD i Json.null) c) ∧
      st2.updatedCount = st.updatedCount + 1 := by
  have harr : orEmptyArray (getField (st.productions.getD i Json.null) "themes") =
      Json.arr [] := by
    rcases hth with hn | ⟨t, ht, htr⟩
    · rw [hn]
      rfl
    · rw [ht]
      show (if truthy t = true then t else Json.arr []) = Json.arr []
      rw [if_neg (by simp [htr])]
  have hthm : getField (mergedRecord (st.productions.getD i Json.null) c) "themes" =
      some (Json.arr []) := by
    rw [getField_mergedRecord_themes, harr]
  have hne : mergedRecord (st.productions.getD i Json.null) c ≠
      st.productions.getD i Json.null := by
    intro he
    rw [he] at hthm
    rcases hth with hn | ⟨t, ht, htr⟩
    · rw [hn] at hthm
      cases hthm
    · rw [ht] at hthm
      have ht2 := Option.some.inj hthm
      rw [ht2] at htr
      cases htr
  obtain ⟨st2, hok⟩ := mergeMatched_isOk_of_arr (c := c) harr
  rw [processCandidate_matched hwf hm]
  obtain ⟨_, _, _, hd⟩ := mergeMatched_ok_spec hok
  rcases hd with ⟨heq, _, _⟩ | ⟨_, hp, hu⟩
  · exact absurd heq hne
  · exact ⟨st2, hok, hthm, hp, hu⟩

/-- C10 witness: an existing record without `themes`, and a candidate
identical to it; the record is still replaced (gaining `themes: []`) and the
updated count increments. -/
theorem claim_C10_witness :
    isWellFormedCandidate (Json.obj [("id", Json.str "a")]) = true ∧
    (∃ st2, processCandidate [(Json.str "a", 0)]
        (initState [Json.obj [("id", Json.str "a")]])
        (Json.obj [("id", Json.str "a")]) = Except.ok st2 ∧
      getField (mergedRecord ((initState
          [Json.obj [("id", Json.str "a")]]).productions.getD 0 Json.null)
          (Json.obj [("id", Json.str "a")])) "themes" = some (Json.arr []) ∧
      st2.productions = (initState [Json.obj [("id", Json.str "a")]]).productions.set 0
        (mergedRecord ((initState
          [Json.obj [("id", Json.str "a")]]).productions.getD 0 Json.null)
          (Json.obj [("id", Json.str "a")])) ∧
      st2.updatedCount = (initState [Json.obj [("id", Json.str "a")]]).updatedCount + 1) :=
  ⟨by decide,
    claim_C10 [(Json.str "a", 0)] (initState [Json.obj [("id", Json.str "a")]])
      (Json.obj [("id", Json.str "a")]) 0 (by decide) (by decide) (Or.inl (by decide))⟩

/-! ### Locating each candidate's record after a run (toward idempotence) -/

theorem wfIds_append (u w : List Json) : wfIds (u ++ w) = wfIds u ++ wfIds w := by
  simp [wfIds]

theorem mem_wfIds {c : Json} {l : List Json} (hc : c ∈ l)
    (hwf : isWellFormedCandidate c = true) : candidateId c ∈ wfIds l := by
  unfold wfIds
  rw [List.mem_filterMap]
  exact ⟨c, hc, by rw [if_pos hwf, (wf_spec hwf).2.1]⟩

theorem nodup_wfIds_split {l1 l2 : List Json} {c : Json}
    (hwf : isWellFormedCandidate c = true)
    (hn : (wfIds (l1 ++ c :: l2)).Nodup) :
    candidateId c ∉ wfIds l1 ∧ candidateId c ∉ wfIds l2 := by
  rw [wfIds_append, wfIds_cons, if_pos hwf] at hn
  rw [List.nodup_append] at hn
  obtain ⟨_, hn2, hdisj⟩ := hn
  constructor
  · intro hmem
    exact hdisj hmem (List.mem_cons_self _ _)
  · exact (List.nodup_cons.mp hn2).1

theorem final_record_matched {ps cs : List Json} {st1 : SyncState} {c : Json} {i : Nat}
    (h : runMerge ps cs = Except.ok st1) (hcs : (wfIds cs).Nodup)
    (hmem : c ∈ cs) (hwf : isWellFormedCandidate c = true)
    (hm : mapGet (buildIndex ps) (candidateId c) = some i) :
    st1.productions.getD i Json.null = mergedRecord (ps.getD i Json.null) c ∧
    ∃ ts, orEmptyArray (getField (ps.getD i Json.null) "themes") = Json.arr ts := by
  obtain ⟨l1, l2, rfl⟩ := List.append_of_mem hmem
  obtain ⟨hnotin1, hnotin2⟩ := nodup_wfIds_split hwf hcs
  have hiN : i < ps.length := (buildIndex_sound hm).1
  have h0 : mergeLoop (buildIndex ps) (initState ps) (l1 ++ c :: l2) = Except.ok st1 := h
  rw [mergeLoop_append] at h0
  cases hA : mergeLoop (buildIndex ps) (initState ps) l1
  · rw [hA] at h0
    cases h0
  · rename_i stA
    rw [hA] at h0
    have h1 : mergeLoop (buildIndex ps) stA (c :: l2) = Except.ok st1 := h0
    rw [mergeLoop_cons] at h1
    cases hB : processCandidate (buildIndex ps) stA c
    · rw [hB] at h1
      cases h1
    · rename_i stB
      rw [hB] at h1
      have h0 : mergeLoop (buildIndex ps) stB l2 = Except.ok st1 := h1
      have hnt : ∀ c2 ∈ l1, isWellFormedCandidate c2 = true →
          mapGet (buildIndex ps) (candidateId c2) ≠ some i := by
        intro c2 hc2 hwf2 hm2
        have e1 := (buildIndex_sound hm2).2.1
        have e2 := (buildIndex_sound hm).2.1
        rw [e1] at e2
        have heq : candidateId c2 = candidateId c := Option.some.inj e2
        exact hnotin1 (heq ▸ mem_wfIds hc2 hwf2)
      have hiA0 : i < (initState ps).productions.length := hiN
      have hrecA : stA.productions.getD i Json.null = ps.getD i Json.null :=
        mergeLoop_no_touch hA hiA0 hnt
      have hiA : i < stA.productions.length :=
        Nat.lt_of_lt_of_le hiA0 (mergeLoop_length hA)
      obtain ⟨hrecB, hts⟩ := processCandidate_touch hB hwf hm hiA
      rw [hrecA] at hrecB hts
      have hnt2 : ∀ c2 ∈ l2, isWellFormedCandidate c2 = true →
          mapGet (buildIndex ps) (candidateId c2) ≠ some i := by
        intro c2 hc2 hwf2 hm2
        have e1 := (buildIndex_sound hm2).2.1
        have e2 := (buildIndex_sound hm).2.1
        rw [e1] at e2
        have heq : candidateId c2 = candidateId c := Option.some.inj e2
        exact hnotin2 (heq ▸ mem_wfIds hc2 hwf2)
      have hiB : i < stB.productions.length :=
        Nat.lt_of_lt_of_le hiA (processCandidate_length hB)
      have hrec1 : st1.productions.getD i Json.null = stB.productions.getD i Json.null :=
        mergeLoop_no_touch h0 hiB hnt2
      rw [hrec1, hrecB]
      exact ⟨rfl, hts⟩

theorem runMerge_ready {ps cs : List Json} {st1 : SyncState}
    (h : runMerge ps cs = Except.ok st1) (hcs : (wfIds cs).Nodup)
    (hthm : ∀ c ∈ cs, isWellFormedCandidate c = true →
      nodupKeys c ∧ ∃ ts, getField c "themes" = some (Json.arr ts)) :
    ∀ c ∈ cs, isWellFormedCandidate c = true →
      ∃ p2, mapGet (buildIndex st1.productions) (candidateId c) = some p2 ∧
        p2 < st1.productions.length ∧
        Saturated (st1.productions.getD p2 Json.null) c ∧
        ∃ ts, getField (st1.productions.getD p2 Json.null) "themes" =
          some (Json.arr ts) := by
  obtain ⟨hdrop, hids, _, hlen⟩ := runMerge_structure h
  have htake_len : (st1.productions.take ps.length).length = ps.length := by
    rw [List.length_take]
    omega
  have htake_ids : ∀ j, j < (st1.productions.take ps.length).length →
      getField ((st1.productions.take ps.length).getD j Json.null) "id" =
      getField (ps.getD j Json.null) "id" := by
    intro j hj
    rw [htake_len] at hj
    have hgd : (st1.productions.take ps.length).getD j Json.null =
        st1.productions.getD j Json.null := by
      rw [List.getD_eq_getElem?_getD, List.getD_eq_getElem?_getD, List.getElem?_take,
        if_pos hj]
    rw [hgd]
    exact hids j hj
  have hsplit : st1.productions =
      st1.productions.take ps.length ++ newcomers (buildIndex ps) cs := by
    conv_lhs => rw [← List.take_append_drop ps.length st1.productions]
    rw [hdrop]
  intro c hc hwf
  have hidc := (wf_spec hwf).2.1
  have htrc := (wf_spec hwf).2.2
  cases hm1 : mapGet (buildIndex ps) (candidateId c)
  · -- created in run 1: its record is the verbatim appended candidate
    obtain ⟨hnd, ts, hts⟩ := hthm c hc hwf
    have hcNC : c ∈ newcomers (buildIndex ps) cs :=
      List.mem_filter.mpr ⟨hc, by rw [hwf, hm1]; rfl⟩
    have hNCnodup : (idsOf (newcomers (buildIndex ps) cs)).Nodup :=
      List.Nodup.sublist (idsOf_newcomers_sublist _ cs) hcs
    have huniq : ∀ d ∈ newcomers (buildIndex ps) cs,
        getField d "id" = some (candidateId c) → d = c :=
      fun d hd hdid => eq_of_nodup_ids hNCnodup hd hcNC hdid hidc
    obtain ⟨j, hjlast, hjlen, hjrec⟩ := lastIdIdx_find_unique hcNC hidc htrc huniq
    have hp2 : mapGet (buildIndex st1.productions) (candidateId c) =
        some (ps.length + j) := by
      rw [buildIndex_get]
      conv_lhs => rw [hsplit]
      rw [lastIdIdx_append, hjlast]
      show some ((st1.productions.take ps.length).length + j) = _
      rw [htake_len]
    have hreceq : st1.productions.getD (ps.length + j) Json.null = c := by
      rw [List.getD_eq_getElem?_getD, ← List.getElem?_drop, hdrop,
        ← List.getD_eq_getElem?_getD, hjrec]
    have hlen2 : ps.length + j < st1.productions.length := by
      have hl2 : (newcomers (buildIndex ps) cs).length =
          (st1.productions.drop ps.length).length := by
        rw [hdrop]
      rw [List.length_drop] at hl2
      omega
    exact ⟨ps.length + j, hp2, hlen2,
      by rw [hreceq]; exact saturated_self hnd hts, ts, by rw [hreceq]; exact hts⟩
  · -- matched in run 1: its record is the merged record kept in place
    rename_i i
    obtain ⟨hrec, ts, hts⟩ := final_record_matched h hcs hc hwf hm1
    have hiN : i < ps.length := (buildIndex_sound hm1).1
    have hnc_none : lastIdIdx (candidateId c) (newcomers (buildIndex ps) cs) = none := by
      cases hl : lastIdIdx (candidateId c) (newcomers (buildIndex ps) cs)
      · rfl
      · exfalso
        rename_i j
        obtain ⟨hjl, hjid, _, _⟩ := lastIdIdx_some_spec hl
        have hmemr : (newcomers (buildIndex ps) cs).getD j Json.null ∈
            newcomers (buildIndex ps) cs := by
          rw [List.getD_eq_getElem _ _ hjl]
          exact List.getElem_mem hjl
        obtain ⟨_, hwfr, hnr⟩ := mem_newcomers hmemr
        have hid2 := (wf_spec hwfr).2.1
        rw [hid2] at hjid
        have heq := Option.some.inj hjid
        rw [heq] at hnr
        rw [hnr] at hm1
        cases hm1
    have hmap2 : mapGet (buildIndex st1.productions) (candidateId c) = some i := by
      rw [buildIndex_get]
      conv_lhs => rw [hsplit]
      rw [lastIdIdx_append, hnc_none]
      show lastIdIdx (candidateId c) (st1.productions.take ps.length) = some i
      rw [lastIdIdx_congr htake_len htake_ids, ← buildIndex_get]
      exact hm1
    refine ⟨i, hmap2, Nat.lt_of_lt_of_le hiN hlen, ?_, ts, ?_⟩
    · rw [hrec]
      exact saturated_mergedRecord _ (hthm c hc hwf).1
    · rw [hrec, getField_mergedRecord_themes, hts]

theorem mergeLoop_saturated (idx2 : List (Json × Nat)) (P : List Json) :
    ∀ (rest : List Json) (st : SyncState), st.productions = P →
    (∀ c ∈ rest, isWellFormedCandidate c = true →
      ∃ p2, mapGet idx2 (candidateId c) = some p2 ∧ p2 < P.length ∧
        Saturated (P.getD p2 Json.null) c ∧
        ∃ ts, getField (P.getD p2 Json.null) "themes" = some (Json.arr ts)) →
    ∃ st2, mergeLoop idx2 st rest = Except.ok st2 ∧
      st2.productions = P ∧ st2.updatedCount = st.updatedCount ∧
      st2.createdCount = st.createdCount ∧
      st2.themesUnchangedCount = st.themesUnchangedCount +
        (rest.filter (fun c => isWellFormedCandidate c)).length := by
  intro rest
  induction rest with
  | nil =>
      intro st hP _
      exact ⟨st, rfl, hP, rfl, rfl, by simp⟩
  | cons c rest ih =>
      intro st hP hsat
      by_cases hwf : isWellFormedCandidate c = true
      · obtain ⟨p2, hm2, hlt, hsatc, ts, hth⟩ := hsat c (List.mem_cons_self c rest) hwf
        have hrec : st.productions.getD p2 Json.null = P.getD p2 Json.null := by
          rw [hP]
        have harr : orEmptyArray (getField (st.productions.getD p2 Json.null) "themes") =
            Json.arr ts := by
          rw [hrec, hth, orEmptyArray_arr]
        obtain ⟨stB, hok⟩ := mergeMatched_isOk_of_arr (c := c) harr
        obtain ⟨_, hthU, hcre, hd⟩ := mergeMatched_ok_spec hok
        have hmerged : mergedRecord (st.productions.getD p2 Json.null) c =
            st.productions.getD p2 Json.null := by
          rw [hrec]
          exact hsatc
        rcases hd with ⟨_, hpp, huu⟩ | ⟨hne, _, _⟩
        · obtain ⟨st2, hloop, hP2, hupd2, hcre2, hthm2⟩ := ih stB (by rw [hpp, hP])
            (fun d hd2 hwfd => hsat d (List.mem_cons_of_mem c hd2) hwfd)
          refine ⟨st2, ?_, hP2, by rw [hupd2, huu], by rw [hcre2, hcre], ?_⟩
          · rw [mergeLoop_cons, processCandidate_matched hwf hm2, hok]
            exact hloop
          · rw [hthm2, hthU, List.filter_cons_of_pos (by simp [hwf])]
            simp only [List.length_cons]
            omega
        · exact absurd hmerged hne
      · obtain ⟨st2, hloop, hP2, hupd2, hcre2, hthm2⟩ := ih st hP
          (fun d hd2 hwfd => hsat d (List.mem_cons_of_mem c hd2) hwfd)
        refine ⟨st2, ?_, hP2, hupd2, hcre2, ?_⟩
        · rw [mergeLoop_cons, processCandidate_skip (by simpa using hwf)]
          exact hloop
        · rw [hthm2, List.filter_cons_of_neg (by simp [hwf])]

/-- C6 counterexample: a single well-formed candidate without a `themes`
field.  The first run appends it verbatim; the second run with the same
candidates matches it, and the merged record gains `themes: []`, so the
record is replaced and the second run's updated count is 1, not 0. -/
theorem claim_C6_counterexample :
    (runMerge [] [Json.obj [("id", Json.str "b")]]).map SyncState.productions =
      Except.ok [Json.obj [("id", Json.str "b")]] ∧
    (runMerge [Json.obj [("id", Json.str "b")]] [Json.obj [("id", Json.str "b")]]).map
      SyncState.updatedCount = Except.ok 1 := by
  exact ⟨by decide, by decide⟩

/-- C6 (amended): the merge is idempotent provided the well-formed candidates
have pairwise-distinct ids, no duplicate field names, and an array-valued
`themes` field: running the merge again with the same candidates against the
first run's output succeeds, updates nothing (updated count 0), and counts
themes-unchanged once for every well-formed candidate (on the second run each
of them matches an existing record). -/
theorem claim_C6_amended (ps cs : List Json) (st1 : SyncState)
    (h1 : runMerge ps cs = Except.ok st1)
    (hcs : (wfIds cs).Nodup)
    (hthm : ∀ c ∈ cs, isWellFormedCandidate c = true →
      nodupKeys c ∧ ∃ ts, getField c "themes" = some (Json.arr ts)) :
    ∃ st2, runMerge st1.productions cs = Except.ok st2 ∧
      st2.updatedCount = 0 ∧
      st2.themesUnchangedCount = (cs.filter (fun c => isWellFormedCandidate c)).length := by
  have hready := runMerge_ready h1 hcs hthm
  obtain ⟨st2, hloop, _, hupd, _, hthm2⟩ :=
    mergeLoop_saturated (buildIndex st1.productions) st1.productions cs
      (initState st1.productions) rfl hready
  exact ⟨st2, hloop, by rw [hupd]; rfl, by rw [hthm2]; simp [initState]⟩

/-- C6 witness: concrete instance of the amended claim. -/
theorem claim_C6_witness :
    runMerge [] [Json.obj [("id", Json.str "b"), ("themes", Json.arr [Json.str "z"])]] =
      Except.ok ⟨[Json.obj [("id", Json.str "b"), ("themes", Json.arr [Json.str "z"])]],
        1, 0, 0, 0⟩ ∧
    (∃ st2, runMerge (⟨[Json.obj [("id", Json.str "b"),
          ("themes", Json.arr [Json.str "z"])]], 1, 0, 0, 0⟩ : SyncState).productions
        [Json.obj [("id", Json.str "b"), ("themes", Json.arr [Json.str "z"])]] =
        Except.ok st2 ∧
      st2.updatedCount = 0 ∧
      st2.themesUnchangedCount = ([Json.obj [("id", Json.str "b"),
        ("themes", Json.arr [Json.str "z"])]].filter
          (fun c => isWellFormedCandidate c)).length) :=
  ⟨by decide,
    claim_C6_amended [] [Json.obj [("id", Json.str "b"), ("themes", Json.arr [Json.str "z"])]]
      ⟨[Json.obj [("id", Json.str "b"), ("themes", Json.arr [Json.str "z"])]], 1, 0, 0, 0⟩
      (by decide) (by decide)
      (fun c hc hwf => by
        rw [List.mem_singleton] at hc
        subst hc
        exact ⟨by decide, [Json.str "z"], by decide⟩)⟩
